import Mathlib

/-!
Verification development for the MindFlow branching-chat client.

The definitions below are a shallow embedding of the TypeScript sources:
  * `src/src/types/index.ts`        — data model (`ChatNode`, `ChatSession`, …)
  * `src/src/stores/chatStore.ts`   — node store / session coordinator
    (`addNode`, `updateNode`, `deleteNode`, `getConversationPath`, …)
  * `src/src/utils/layoutUtils.ts`  — layout engine (`estimateNodeHeight`,
    `buildTree`, `calculateSubtreeWidth`, `layoutTree`, `autoLayout`)
  * `src/components/FlowCanvas/ChatNode.tsx` — streaming reconciliation in
    `handleSend` (chunk merging, completion, cancellation, failure)
  * `server/database.ts`            — model-configuration store

JavaScript records (`Record<string, T>`) are modelled as association lists in
insertion order, persistence calls (`sessionAPI.updateSession`) are modelled by
accumulating the passed session values in a log, `Date.now()` timestamps are
explicit parameters, and JS truthiness tests on `string | null | undefined`
values are modelled by `strOptTruthy` (empty string and null are falsy).
Numeric coordinates use `ℚ` (the JS code does exact small-integer and
halving arithmetic only).
-/

/-- 2-D position `{ x, y }`. -/
structure Pos where
  x : ℚ
  y : ℚ
deriving DecidableEq

/-- Embeds `QuotedContent` from `types/index.ts`: a user-selected excerpt. -/
structure QuotedContent where
  text : String
  nodeId : String
  sourceType : String
  fullContext : Option String
deriving DecidableEq

/-- The discriminated node kind
`'user' | 'assistant' | 'system' | 'input' | 'loading' | 'conversation'`. -/
inductive NodeType where
  | user
  | assistant
  | system
  | input
  | loading
  | conversation
deriving DecidableEq

/-- Embeds `ChatNode` from `types/index.ts` (plus the `thinkingContent` field that the
store and the layout code read and write). -/
structure ChatNode where
  id : String
  type : NodeType
  content : String
  parentId : Option String
  children : List String
  model : String
  timestamp : Int
  position : Pos
  userMessage : Option String
  assistantMessage : Option String
  thinkingContent : Option String
  quotedContent : Option QuotedContent
deriving DecidableEq

/-- JS truthiness of a `string | null | undefined` value:
`null`/`undefined` and the empty string are falsy. -/
def strOptTruthy : Option String → Bool
  | none => false
  | some s => !(s == "")

/-- Embeds `Record<string, ChatNode>` as an association list in insertion order. -/
def NodeMap := List (String × ChatNode)
deriving DecidableEq

/-- Property read `nodes[id]`. -/
def lookupNode (m : NodeMap) (id : String) : Option ChatNode :=
  match m with
  | [] => none
  | (k, v) :: rest => if k = id then some v else lookupNode rest id

/-- Property write `nodes[id] = n`: replace in place if the key exists,
append otherwise (JS string-key insertion order). -/
def setNode (m : NodeMap) (id : String) (n : ChatNode) : NodeMap :=
  match m with
  | [] => [(id, n)]
  | (k, v) :: rest => if k = id then (id, n) :: rest else (k, v) :: setNode rest id n

/-- Embeds `delete nodes[id]`. -/
def removeNode (m : NodeMap) (id : String) : NodeMap :=
  match m with
  | [] => []
  | (k, v) :: rest => if k = id then removeNode rest id else (k, v) :: removeNode rest id

/-- Embeds `ChatSession` from `types/index.ts`. -/
structure ChatSession where
  id : String
  title : String
  nodes : NodeMap
  rootNodeId : String
  createdAt : Int
  updatedAt : Int
  defaultModelId : Option String
deriving DecidableEq

/-- The root node built by `createSession` in `chatStore.ts` (id `'root'`,
kind pending-input, fixed position `(250, 50)`); `Date.now()` is the
explicit `now` argument. -/
def createSessionRootNode (now : Int) : ChatNode :=
  { id := "root", type := .input, content := "", parentId := none, children := [],
    model := "", timestamp := now, position := ⟨250, 50⟩,
    userMessage := none, assistantMessage := none, thinkingContent := none,
    quotedContent := none }

/-- The fresh session built by `createSession` in `chatStore.ts`. -/
def createSessionValue (sessionId : String) (now : Int) (defaultModelId : Option String) :
    ChatSession :=
  { id := sessionId, title := "新对话",
    nodes := [("root", createSessionRootNode now)], rootNodeId := "root",
    createdAt := now, updatedAt := now, defaultModelId := defaultModelId }

/-- Embeds `Partial<ChatNode>`: a present outer `some` means the key occurs in the
update object (possibly with JS value `undefined`, the inner `none`). -/
structure NodeUpdates where
  id : Option String := none
  type : Option NodeType := none
  content : Option String := none
  parentId : Option (Option String) := none
  children : Option (List String) := none
  model : Option String := none
  timestamp : Option Int := none
  position : Option Pos := none
  userMessage : Option (Option String) := none
  assistantMessage : Option (Option String) := none
  thinkingContent : Option (Option String) := none
  quotedContent : Option (Option QuotedContent) := none

/-- The spread `{ ...node, ...updates }` in `updateNode`. -/
def applyUpdates (n : ChatNode) (u : NodeUpdates) : ChatNode :=
  { id := u.id.getD n.id
    type := u.type.getD n.type
    content := u.content.getD n.content
    parentId := u.parentId.getD n.parentId
    children := u.children.getD n.children
    model := u.model.getD n.model
    timestamp := u.timestamp.getD n.timestamp
    position := u.position.getD n.position
    userMessage := u.userMessage.getD n.userMessage
    assistantMessage := u.assistantMessage.getD n.assistantMessage
    thinkingContent := u.thinkingContent.getD n.thinkingContent
    quotedContent := u.quotedContent.getD n.quotedContent }

/-- Embeds `updateNode` from `chatStore.ts` acting on the current session.  Returns
the new session together with the log of sessions passed to
`sessionAPI.updateSession` (empty when `saveToDb` is false, a single entry
otherwise).  A missing node id is the source's silent no-op. -/
def updateNode (s : ChatSession) (nodeId : String) (u : NodeUpdates)
    (saveToDb : Bool) (now : Int) : ChatSession × List ChatSession :=
  match lookupNode s.nodes nodeId with
  | none => (s, [])
  | some n =>
      let s' := { s with nodes := setNode s.nodes nodeId (applyUpdates n u), updatedAt := now }
      (s', if saveToDb then [s'] else [])

/-- Embeds `addNode` from `chatStore.ts`: insert the node, append its id to the
parent's child list when the parent reference is truthy and resolves, and
persist the whole session once. -/
def addNode (s : ChatSession) (node : ChatNode) (now : Int) : ChatSession × List ChatSession :=
  let nodes1 := setNode s.nodes node.id node
  let nodes2 :=
    if strOptTruthy node.parentId then
      match node.parentId with
      | some pid =>
          match lookupNode nodes1 pid with
          | some p => setNode nodes1 pid { p with children := p.children ++ [node.id] }
          | none => nodes1
      | none => nodes1
    else nodes1
  let s' := { s with nodes := nodes2, updatedAt := now }
  (s', [s'])

/-- The local `deleteChildren` closure inside `deleteNode`: for each child id
of the looked-up node it first recurses and then deletes that child, so it
removes exactly the strict descendants of `id` — but never `id` itself.
The fuel argument bounds the recursion depth (the JS recursion terminates
on every acyclic child graph, where any fuel ≥ the map size is enough). -/
def deleteChildrenFuel : Nat → NodeMap → String → NodeMap
  | 0, m, _ => m
  | fuel + 1, m, id =>
      match lookupNode m id with
      | none => m
      | some n =>
          n.children.foldl (fun acc childId => removeNode (deleteChildrenFuel fuel acc childId) childId) m

/-- Embeds `deleteNode` from `chatStore.ts` acting on the current session and the
selection cursor.  Returns the new session, the new `selectedNodeId`, and the
persistence log.  Mirrors the source exactly: detach from the truthy parent's
child list, delete the node itself, then call `deleteChildren` on each direct
child (which deletes only that child's strict descendants), and select
`nodeToDelete.parentId || currentSession.rootNodeId`. -/
def deleteNode (s : ChatSession) (sel : Option String) (nodeId : String) (now : Int) :
    ChatSession × Option String × List ChatSession :=
  match lookupNode s.nodes nodeId with
  | none => (s, sel, [])
  | some nodeToDelete =>
      let m1 :=
        if strOptTruthy nodeToDelete.parentId then
          match nodeToDelete.parentId with
          | some pid =>
              match lookupNode s.nodes pid with
              | some p => setNode s.nodes pid { p with children := p.children.filter (fun id => !(id == nodeId)) }
              | none => s.nodes
          | none => s.nodes
        else s.nodes
      let m2 := removeNode m1 nodeId
      let m3 := nodeToDelete.children.foldl
        (fun acc childId => deleteChildrenFuel s.nodes.length acc childId) m2
      let s' := { s with nodes := m3, updatedAt := now }
      let newSel :=
        match nodeToDelete.parentId with
        | some p => if p = "" then s.rootNodeId else p
        | none => s.rootNodeId
      (s', some newSel, [s'])

/-- The parent-link walk of `getConversationPath`, building the path by
`unshift` (modelled by cons): for a conversation node with truthy user and
assistant payloads the source unshifts the user entry and then the assistant
entry, which leaves the assistant entry in front of the user entry; system
and input nodes contribute nothing; other kinds are unshifted as-is.  Fuel
bounds the walk (the JS loop terminates on every acyclic parent graph). -/
def conversationPathAux : Nat → ChatSession → Option String → List ChatNode → List ChatNode
  | 0, _, _, path => path
  | fuel + 1, s, currentId, path =>
      if strOptTruthy currentId then
        match currentId with
        | none => path
        | some cid =>
            match lookupNode s.nodes cid with
            | none => path
            | some node =>
                let path' :=
                  if node.type = .conversation ∧ strOptTruthy node.userMessage ∧
                      strOptTruthy node.assistantMessage then
                    { node with type := .assistant, content := node.assistantMessage.getD "" } ::
                      { node with type := .user, content := node.userMessage.getD "" } :: path
                  else if node.type ≠ .system ∧ node.type ≠ .input then
                    node :: path
                  else path
                conversationPathAux fuel s node.parentId path'
      else path

/-- Embeds `getConversationPath` from `chatStore.ts`: walk parent links from the
selected node, then keep only user/assistant entries. -/
def getConversationPath (s : ChatSession) (selectedNodeId : Option String) : List ChatNode :=
  (conversationPathAux (s.nodes.length + 1) s selectedNodeId []).filter
    (fun n => n.type == NodeType.user || n.type == NodeType.assistant)

instance : DecidableEq NodeMap := inferInstanceAs (DecidableEq (List (String × ChatNode)))

/-- The parent/child symmetry invariant of the node map as a decidable check:
every truthy parent reference resolves and the parent lists the key among its
children, and every listed child id resolves to a node whose parent reference
is the listing key. -/
def checkParentChildSymmetry (m : NodeMap) : Bool :=
  m.all (fun p =>
    (match p.2.parentId with
     | none => true
     | some pid =>
        match lookupNode m pid with
        | some pn => pn.children.contains p.1
        | none => false) &&
    p.2.children.all (fun c =>
      match lookupNode m c with
      | some cn => cn.parentId == some p.1
      | none => false))

/-- Shorthand for building a concrete node in the scenario sessions. -/
def mkNode (id : String) (ty : NodeType) (content : String) (parent : Option String)
    (children : List String) : ChatNode :=
  { id := id, type := ty, content := content, parentId := parent, children := children,
    model := "", timestamp := 0, position := ⟨0, 0⟩, userMessage := none,
    assistantMessage := none, thinkingContent := none, quotedContent := none }

/-- The chain root → A(user) → B(composite, user "Q", assistant "R") →
C(pending-input) of the path-resolution scenario. -/
def pathChainNodes : NodeMap :=
  [("root", mkNode "root" .input "" none ["A"]),
   ("A", mkNode "A" .user "A.content" (some "root") ["B"]),
   ("B", { mkNode "B" .conversation "Q" (some "A") ["C"] with
            userMessage := some "Q", assistantMessage := some "R" }),
   ("C", mkNode "C" .input "" (some "B") [])]

/-- The session holding `pathChainNodes`. -/
def pathChainSession : ChatSession :=
  { id := "s", title := "t", nodes := pathChainNodes, rootNodeId := "root",
    createdAt := 0, updatedAt := 0, defaultModelId := none }

/-- A chain session root → a → b → c used for the deletion scenarios. -/
def deleteChainSession : ChatSession :=
  { id := "s2", title := "t", rootNodeId := "root", createdAt := 0, updatedAt := 0,
    defaultModelId := none,
    nodes :=
      [("root", mkNode "root" .input "" none ["a"]),
       ("a", mkNode "a" .conversation "" (some "root") ["b"]),
       ("b", mkNode "b" .conversation "" (some "a") ["c"]),
       ("c", mkNode "c" .input "" (some "b") [])] }

/-- The reachable store state obtained from a fresh `createSession` result by
adding a conversation node `a` under the root and a pending-input node `b`
under `a` through `addNode`. -/
def symmetryScenario : ChatSession :=
  (addNode
    (addNode (createSessionValue "s3" 0 none)
      (mkNode "a" .conversation "hi" (some "root") []) 1).1
    (mkNode "b" .input "" (some "a") []) 2).1

/-- A session in which node `x` carries the degenerate parent reference
`parentId = ""` (a non-null string), exercising the JS `||` fallback. -/
def emptyParentSession : ChatSession :=
  { id := "s4", title := "t", rootNodeId := "root", createdAt := 0, updatedAt := 0,
    defaultModelId := none,
    nodes :=
      [("root", mkNode "root" .input "" none ["x"]),
       ("x", mkNode "x" .conversation "" (some "") [])] }

/-- A row of the `model_configs` table in `server/database.ts` (`isDefault` is
the SQLite integer flag, `0` or `1` as written by the code). -/
structure ModelConfigRow where
  id : String
  name : String
  provider : String
  model : String
  apiKey : Option String
  baseURL : Option String
  temperature : ℚ
  maxTokens : Int
  isDefault : Int
  createdAt : Int
deriving DecidableEq

/-- First statement of `setDefaultModelConfig`:
`UPDATE model_configs SET isDefault = 0`. -/
def clearAllDefaults (db : List ModelConfigRow) : List ModelConfigRow :=
  db.map (fun r => { r with isDefault := 0 })

/-- Embeds `setDefaultModelConfig` from `server/database.ts`: clear every default
flag, then `UPDATE model_configs SET isDefault = 1 WHERE id = ?`. -/
def setDefaultModelConfig (db : List ModelConfigRow) (id : String) : List ModelConfigRow :=
  (clearAllDefaults db).map (fun r => if r.id = id then { r with isDefault := 1 } else r)

/-- A concrete two-row table in which `A` is currently the default. -/
def twoRowConfigTable : List ModelConfigRow :=
  [{ id := "A", name := "a", provider := "openai", model := "m", apiKey := none,
     baseURL := none, temperature := 1, maxTokens := 100, isDefault := 1, createdAt := 0 },
   { id := "B", name := "b", provider := "anthropic", model := "m2", apiKey := none,
     baseURL := none, temperature := 1, maxTokens := 100, isDefault := 0, createdAt := 1 }]

/-- The backtick character (code-fence marker). -/
def backtickChar : Char := '\x60'

/-- Whether the character list starts with a three-backtick code fence. -/
def isFenceAt : List Char → Bool
  | a :: b :: c :: _ => a == backtickChar && b == backtickChar && c == backtickChar
  | _ => false

/-- Drop characters until the list starts with a code fence (none if no fence
occurs). -/
def dropToFence : List Char → Option (List Char)
  | [] => none
  | x :: xs => if isFenceAt (x :: xs) then some (x :: xs) else dropToFence xs

/-- Split at the earliest code fence: returns the characters before it and the
characters after it (the fence itself consumed). -/
def splitAtFence : List Char → Option (List Char × List Char)
  | [] => none
  | x :: xs =>
      if isFenceAt (x :: xs) then some ([], (x :: xs).drop 3)
      else
        match splitAtFence xs with
        | some (a, b) => some (x :: a, b)
        | none => none

/-- The three fence characters. -/
def fenceChars : List Char := [backtickChar, backtickChar, backtickChar]

/-- All matches of the global non-greedy regex for fenced code blocks
(`text.match` in `estimateContentHeight`): repeatedly take the leftmost
fence, close it at the nearest following fence, and continue after the
match.  Fuel bounds the scan (the text length always suffices). -/
def codeBlockMatchesFuel : Nat → List Char → List (List Char)
  | 0, _ => []
  | fuel + 1, s =>
      match dropToFence s with
      | none => []
      | some t =>
          match splitAtFence (t.drop 3) with
          | none => []
          | some (mid, after) =>
              (fenceChars ++ mid ++ fenceChars) :: codeBlockMatchesFuel fuel after

/-- The fenced code blocks of a text. -/
def codeBlockMatches (text : String) : List (List Char) :=
  codeBlockMatchesFuel (text.length + 1) text.toList

/-- The per-line contribution of the `for (const line of lines)` loop in
`estimateContentHeight`: 24 for blank lines, 36 for heading-like lines, 0 for
fence lines, otherwise 24 per wrapped 60-character line. -/
def lineHeightContribution (line : String) : ℚ :=
  if line.trim = "" then 24
  else if line.startsWith "#" then 36
  else if line.startsWith "```" then 0
  else 24 * (((line.length + 59) / 60 : ℕ) : ℚ)

/-- Embeds `estimateContentHeight` (the identical local helper in `layoutUtils.ts`
and in `handleSend`): per-line heights plus, for every fenced code block,
20 per block line plus 32 of padding. -/
def estimateContentHeight (text : String) : ℚ :=
  if text = "" then 0
  else
    ((text.splitOn "\n").map lineHeightContribution).foldl (· + ·) 0 +
      ((codeBlockMatches text).map
        (fun b => 20 * (((b.count '\n') + 1 : ℕ) : ℚ) + 32)).foldl (· + ·) 0

/-- Embeds `estimateNodeHeight` from `layoutUtils.ts`: content-dependent height for
conversation nodes, 300 for pending-input nodes, 200 otherwise. -/
def estimateNodeHeight (node : ChatNode) : ℚ :=
  match node.type with
  | .conversation =>
      120 + estimateContentHeight (node.userMessage.getD "") +
        estimateContentHeight (node.assistantMessage.getD "") +
        (if strOptTruthy node.thinkingContent then 60 else 0) + 100
  | .input => 300
  | _ => 200

/-- A streamed chunk is tagged `'thinking'` or `'content'`
(`onChunk(chunk, type)` in `services/ai.ts`). -/
inductive ChunkType where
  | thinking
  | content
deriving DecidableEq

/-- One streamed chunk. -/
structure Chunk where
  type : ChunkType
  text : String
deriving DecidableEq

/-- The providers' `fullContent` accumulator of `services/ai.ts`: the
concatenation, in arrival order, of all `'content'` chunks. -/
def contentOfChunks : List Chunk → String
  | [] => ""
  | c :: cs => (match c.type with | .content => c.text | .thinking => "") ++ contentOfChunks cs

/-- Whether a `'content'` chunk occurs at all. -/
def hasContentChunk (cs : List Chunk) : Bool :=
  cs.any (fun c => c.type == ChunkType.content)

/-- The mutable state of one `handleSend` generation: the current session, the
`streamedContent`/`streamedThinking` accumulators, the log of sessions passed
to `sessionAPI.updateSession`, the `shouldCreateInputNode` flag, and the
`alert` messages shown. -/
structure StreamAcc where
  session : ChatSession
  streamedContent : String
  streamedThinking : String
  persistLog : List ChatSession
  shouldCreateInputNode : Bool
  alerts : List String
deriving DecidableEq

/-- The state at the start of a generation. -/
def initStreamAcc (s : ChatSession) : StreamAcc :=
  { session := s, streamedContent := "", streamedThinking := "", persistLog := [],
    shouldCreateInputNode := false, alerts := [] }

/-- One invocation of the `onChunk` callback in `handleSend`: append the chunk
to the matching accumulator and merge it into the node in memory with
`updateNode(…, false)` — no persistence. -/
def mergeChunk (nodeId : String) (now : Int) (acc : StreamAcc) (c : Chunk) : StreamAcc :=
  match c.type with
  | .thinking =>
      let th := acc.streamedThinking ++ c.text
      let r := updateNode acc.session nodeId { thinkingContent := some (some th) } false now
      { acc with session := r.1, streamedThinking := th, persistLog := acc.persistLog ++ r.2 }
  | .content =>
      let sc := acc.streamedContent ++ c.text
      let r := updateNode acc.session nodeId { assistantMessage := some (some sc) } false now
      { acc with session := r.1, streamedContent := sc, persistLog := acc.persistLog ++ r.2 }

/-- The in-stream phase of `handleSend`: merge all chunks in arrival order. -/
def mergeChunks (s : ChatSession) (nodeId : String) (chunks : List Chunk) (now : Int) :
    StreamAcc :=
  chunks.foldl (mergeChunk nodeId now) (initStreamAcc s)

/-- The final update after a completed stream: `updateNode(…, true)` with the
provider's accumulated `response.content` and `response.thinkingContent`
(empty thinking becomes `undefined`), followed by setting
`shouldCreateInputNode`. -/
def finalizeCompleted (nodeId : String) (later : Int) (chunks : List Chunk)
    (acc : StreamAcc) : StreamAcc :=
  let respThinking := acc.streamedThinking
  let r := updateNode acc.session nodeId
    { assistantMessage := some (some (contentOfChunks chunks)),
      thinkingContent := some (if respThinking = "" then none else some respThinking),
      timestamp := some later } true later
  { acc with session := r.1, persistLog := acc.persistLog ++ r.2, shouldCreateInputNode := true }

/-- The visible stop marker appended on cancellation
(`'\n\n---\n*[生成已停止]*'`). -/
def stopMarker : String := "\n\n---\n*[生成已停止]*"

/-- The update object the `AbortError` branch passes to `updateNode`: the
partial content with the stop marker appended, the accumulated thinking text
(`streamedThinking || undefined`), and a fresh timestamp. -/
def cancelUpdates (streamedContent streamedThinking : String) (later : Int) : NodeUpdates :=
  { assistantMessage := some (some (streamedContent ++ stopMarker)),
    thinkingContent := some (if streamedThinking = "" then none else some streamedThinking),
    timestamp := some later }

/-- The `AbortError` branch of the `catch` in `handleSend`: when the node id
and the accumulated content are truthy, persist the partial content with the
stop marker appended (one `updateNode(…, true)` call) and request the
pending-input child; otherwise do nothing. -/
def cancelStream (nodeId : String) (later : Int) (acc : StreamAcc) : StreamAcc :=
  if !(nodeId == "") && !(acc.streamedContent == "") then
    let r := updateNode acc.session nodeId
      (cancelUpdates acc.streamedContent acc.streamedThinking later) true later
    { acc with session := r.1, persistLog := acc.persistLog ++ r.2,
               shouldCreateInputNode := true }
  else acc

/-- The non-abort branch of the `catch` in `handleSend`: only a descriptive
`alert`; the session, the persistence log and `shouldCreateInputNode` are
untouched. -/
def failStream (msg : String) (acc : StreamAcc) : StreamAcc :=
  { acc with alerts := acc.alerts ++ ["发送失败: " ++ msg] }

/-- The `finally` block of `handleSend`: when `shouldCreateInputNode` is set
and the node id is truthy, create a fresh pending-input child beneath the
conversation node via `addNode` (which persists the session itself), at the
position computed from the estimated content heights. -/
def finallyCreateInput (acc : StreamAcc) (nodeId : String) (userMessage : String)
    (nodeX baseY : ℚ) (later : Int) (newInputId : String) : StreamAcc :=
  if acc.shouldCreateInputNode && !(nodeId == "") then
    let estimatedHeight :=
      120 + estimateContentHeight userMessage + estimateContentHeight acc.streamedContent + 100
    let newInputNode : ChatNode :=
      { id := newInputId, type := .input, content := "", parentId := some nodeId,
        children := [], model := "", timestamp := later,
        position := ⟨nodeX, baseY + estimatedHeight⟩, userMessage := none,
        assistantMessage := none, thinkingContent := none, quotedContent := none }
    let r := addNode acc.session newInputNode later
    { acc with session := r.1, persistLog := acc.persistLog ++ r.2 }
  else acc

/-- A full generation that runs to completion: chunk merges, then the single
durable save.  (The subsequent pending-input creation is `finallyCreateInput`.) -/
def runCompletedStream (s : ChatSession) (nodeId : String) (chunks : List Chunk)
    (now later : Int) : StreamAcc :=
  finalizeCompleted nodeId later chunks (mergeChunks s nodeId chunks now)

/-- A generation cancelled after the given chunks arrived: chunk merges, then
the `AbortError` branch. -/
def runCancelledStream (s : ChatSession) (nodeId : String) (chunks : List Chunk)
    (now later : Int) : StreamAcc :=
  cancelStream nodeId later (mergeChunks s nodeId chunks now)

/-- A generation that fails with a transport/generation error after the given
chunks arrived: chunk merges, then the non-abort `catch` branch. -/
def runFailedStream (s : ChatSession) (nodeId : String) (chunks : List Chunk)
    (now : Int) (msg : String) : StreamAcc :=
  failStream msg (mergeChunks s nodeId chunks now)

/-- The session used by the streaming witnesses: a root whose single child `b`
is a conversation node awaiting its assistant payload. -/
def streamScenario : ChatSession :=
  { id := "s5", title := "t", rootNodeId := "root", createdAt := 0, updatedAt := 0,
    defaultModelId := none,
    nodes :=
      [("root", mkNode "root" .input "" none ["b"]),
       ("b", { mkNode "b" .conversation "hi" (some "root") [] with
                userMessage := some "hi" })] }

/-- The two content chunks "Hel", "lo" of the cancellation scenario. -/
def helChunks : List Chunk := [⟨ChunkType.content, "Hel"⟩, ⟨ChunkType.content, "lo"⟩]

/-- Embeds `LayoutNode` from `layoutUtils.ts`: the working tree of the layout engine
(`width` is initialized to the fixed 600, `height` to the estimated height). -/
structure LayoutNode where
  id : String
  node : ChatNode
  children : List LayoutNode
  depth : Nat
  x : ℚ
  y : ℚ
  width : ℚ
  height : ℚ

/-- Embeds `buildTree` from `layoutUtils.ts`: look the root up, keep the child ids
that resolve, and build the child subtrees.  The JS recursion terminates on
every acyclic child graph; the fuel argument bounds the depth (`autoLayout`
passes the map size, which always suffices there), and `none` models both
fuel exhaustion and the crash on a missing root. -/
def buildTreeF : Nat → NodeMap → String → Option LayoutNode
  | 0, _, _ => none
  | fuel + 1, nodes, rootId =>
      match lookupNode nodes rootId with
      | none => none
      | some node =>
          match (node.children.filter (fun cid => (lookupNode nodes cid).isSome)).mapM
              (buildTreeF fuel nodes) with
          | none => none
          | some children =>
              some { id := node.id, node := node, children := children, depth := 0,
                     x := 0, y := 0, width := 600, height := estimateNodeHeight node }

mutual

/-- Embeds `calculateSubtreeWidth` from `layoutUtils.ts`: a leaf's extent is its own
width; otherwise the maximum of the own width and the children's summed
extents plus inter-sibling spacing. -/
def subtreeWidth (hs : ℚ) : LayoutNode → ℚ
  | .mk _ _ children _ _ _ w _ =>
      match children with
      | [] => w
      | c :: cs =>
          max w (subtreeWidthSum hs (c :: cs) + (((c :: cs).length - 1 : ℕ) : ℚ) * hs)
termination_by structural t => t

/-- The `reduce` over the children in `calculateSubtreeWidth`. -/
def subtreeWidthSum (hs : ℚ) : List LayoutNode → ℚ
  | [] => 0
  | c :: cs => subtreeWidth hs c + subtreeWidthSum hs cs
termination_by structural l => l

end

mutual

/-- Embeds `layoutTree` from `layoutUtils.ts`: store the given position and depth on
the node, then distribute the children left-to-right starting at
`x - totalWidth / 2`, each child centered in its subtree extent, at
`y + height + verticalSpacing`. -/
def layoutTree (hs vs : ℚ) : LayoutNode → ℚ → ℚ → Nat → LayoutNode
  | .mk id node children _ _ _ w h, x, y, depth =>
      let totalWidth := subtreeWidthSum hs children + ((children.length - 1 : ℕ) : ℚ) * hs
      .mk id node
        (layoutChildren hs vs children (x - totalWidth / 2) (y + h + vs) (depth + 1))
        depth x y w h
termination_by structural t => t

/-- The `forEach` loop of `layoutTree`: place each child at
`currentX + childWidth / 2` and advance `currentX` by the child's extent plus
the spacing. -/
def layoutChildren (hs vs : ℚ) : List LayoutNode → ℚ → ℚ → Nat → List LayoutNode
  | [], _, _, _ => []
  | c :: cs, curX, childY, depth =>
      layoutTree hs vs c (curX + subtreeWidth hs c / 2) childY depth ::
        layoutChildren hs vs cs (curX + subtreeWidth hs c + hs) childY depth
termination_by structural l => l

end

/-- Property write on the positions record of `collectPositions`. -/
def setPos (m : List (String × Pos)) (id : String) (p : Pos) : List (String × Pos) :=
  match m with
  | [] => [(id, p)]
  | (k, v) :: rest => if k = id then (id, p) :: rest else (k, v) :: setPos rest id p

/-- Property read on the positions record. -/
def lookupPos (m : List (String × Pos)) (id : String) : Option Pos :=
  match m with
  | [] => none
  | (k, v) :: rest => if k = id then some v else lookupPos rest id

mutual

/-- Embeds `collectPositions` from `layoutUtils.ts`: record this node's position,
then the children's. -/
def collectPositions : LayoutNode → List (String × Pos) → List (String × Pos)
  | .mk id _ children _ x y _ _, acc => collectPositionsList children (setPos acc id ⟨x, y⟩)
termination_by structural t => t

/-- The children traversal of `collectPositions`. -/
def collectPositionsList : List LayoutNode → List (String × Pos) → List (String × Pos)
  | [], acc => acc
  | c :: cs, acc => collectPositionsList cs (collectPositions c acc)
termination_by structural l => l

end

/-- Embeds `autoLayout` from `layoutUtils.ts` with explicit spacing options: build
the tree, lay it out from the fixed origin `(300, 50)`, and collect the
positions. -/
def autoLayout (nodes : NodeMap) (rootId : String) (hs vs : ℚ) :
    Option (List (String × Pos)) :=
  match buildTreeF (nodes.length + 1) nodes rootId with
  | none => none
  | some tree => some (collectPositions (layoutTree hs vs tree 300 50 0) [])

/-- Embeds `autoLayout` with the default spacings 100 and 80 (the call in
`rearrangeNodes`). -/
def autoLayoutDefault (nodes : NodeMap) (rootId : String) :
    Option (List (String × Pos)) :=
  autoLayout nodes rootId 100 80

mutual

/-- All subtrees of a layout tree (the tree itself included). -/
def subtreesOf : LayoutNode → List LayoutNode
  | .mk id node children depth x y w h =>
      .mk id node children depth x y w h :: subtreesOfList children
termination_by structural t => t

/-- All subtrees of a list of layout trees. -/
def subtreesOfList : List LayoutNode → List LayoutNode
  | [] => []
  | c :: cs => subtreesOf c ++ subtreesOfList cs
termination_by structural l => l

end

mutual

/-- The ids of a layout tree in preorder. -/
def treeIds : LayoutNode → List String
  | .mk id _ children _ _ _ _ _ => id :: treeIdsList children
termination_by structural t => t

/-- The ids of a list of layout trees. -/
def treeIdsList : List LayoutNode → List String
  | [] => []
  | c :: cs => treeIds c ++ treeIdsList cs
termination_by structural l => l

end

/-- The left end of a sibling subtree's horizontal bounding interval: the
stored abscissa minus half the subtree extent. -/
def intervalLeft (hs : ℚ) (c : LayoutNode) : ℚ := c.x - subtreeWidth hs c / 2

/-- The right end of a sibling subtree's horizontal bounding interval. -/
def intervalRight (hs : ℚ) (c : LayoutNode) : ℚ := c.x + subtreeWidth hs c / 2

/-- A parent is horizontally centered over the combined span of its children:
its abscissa is the midpoint between the first child's interval start and the
last child's interval end. -/
def centeredOverChildren (hs : ℚ) (u : LayoutNode) : Prop :=
  ∀ a b, u.children.head? = some a → u.children.getLast? = some b →
    u.x = (intervalLeft hs a + intervalRight hs b) / 2

/-- The combined horizontal extent of a sibling list: their summed subtree
extents plus the inter-sibling spacing (the `totalWidth` of `layoutTree`). -/
def spanWidth (hs : ℚ) (cs : List LayoutNode) : ℚ :=
  subtreeWidthSum hs cs + ((cs.length - 1 : ℕ) : ℚ) * hs

/-- A three-node session map: a root with two pending-input children. -/
def wideNodes : NodeMap :=
  [("root", mkNode "root" .input "" none ["a", "b"]),
   ("a", mkNode "a" .input "" (some "root") []),
   ("b", mkNode "b" .input "" (some "root") [])]

/-- The layout tree `buildTree` constructs for `wideNodes`. -/
def wideTree : LayoutNode :=
  ⟨"root", mkNode "root" .input "" none ["a", "b"],
    [⟨"a", mkNode "a" .input "" (some "root") [], [], 0, 0, 0, 600, 300⟩,
     ⟨"b", mkNode "b" .input "" (some "root") [], [], 0, 0, 0, 600, 300⟩],
    0, 0, 0, 600, 300⟩

/-- The position-application loop of `rearrangeNodes` in `chatStore.ts`: for
every id in the computed position map that is present in the node map,
replace that node's `position`. -/
def applyPositions (pm : List (String × Pos)) (nodes : NodeMap) : NodeMap :=
  pm.foldl (fun acc kp =>
    match lookupNode acc kp.1 with
    | some n => setNode acc kp.1 { n with position := kp.2 }
    | none => acc) nodes

/-- Two nodes that differ at most in their `position` field. -/
def eqUpToPos (n1 n2 : ChatNode) : Prop := n2 = { n1 with position := n2.position }

/-- Two node maps with the same keys whose nodes agree up to positions. -/
def mapsAgreeUpToPos (m1 m2 : NodeMap) : Prop :=
  ∀ id, ((lookupNode m1 id).isNone ∧ (lookupNode m2 id).isNone) ∨
    (∃ n1 n2, lookupNode m1 id = some n1 ∧ lookupNode m2 id = some n2 ∧ eqUpToPos n1 n2)

/-- Erase the `position` of the carried `ChatNode` (the only field of a
`LayoutNode` that the layout computation never reads). -/
def stripNode (n : ChatNode) : ChatNode := { n with position := ⟨0, 0⟩ }

mutual

/-- Erase the carried node positions everywhere in a layout tree. -/
def stripTree : LayoutNode → LayoutNode
  | .mk id node children depth x y w h =>
      .mk id (stripNode node) (stripList children) depth x y w h
termination_by structural t => t

/-- Embeds `stripTree` on a list of layout trees. -/
def stripList : List LayoutNode → List LayoutNode
  | [] => []
  | c :: cs => stripTree c :: stripList cs
termination_by structural l => l

end

/-- C1.  On the chain root → A(user) → B(composite user "Q" / assistant "R") →
C(pending-input), resolving the conversation path at C emits, for the composite
node B, the assistant entry BEFORE the user entry (the source `unshift`s the
user entry first and then the assistant entry, which reverses them), so the
emitted sequence is [{user, "A.content"}, {assistant, "R"}, {user, "Q"}] and
not the specified [{user, "A.content"}, {user, "Q"}, {assistant, "R"}]. -/
theorem getConversationPath_compositeOrderReversed :
    (getConversationPath pathChainSession (some "C")).map (fun n => (n.type, n.content)) =
      [(NodeType.user, "A.content"), (NodeType.assistant, "R"), (NodeType.user, "Q")] ∧
    (getConversationPath pathChainSession (some "C")).map (fun n => (n.type, n.content)) ≠
      [(NodeType.user, "A.content"), (NodeType.user, "Q"), (NodeType.assistant, "R")] := by
  constructor
  · rfl
  · decide

/-- C2.  Deleting node `a` of the chain root → a → b → c removes `a` and the
grandchild `c`, but the direct child `b` — reachable from `a` via children
links — survives in the node map, still carrying `parentId = "a"` (a dangling
parent reference to a deleted id) and a stale child list `["c"]`: the local
`deleteChildren` helper removes only the strict descendants of each direct
child and never the direct child itself. -/
theorem deleteNode_leavesDirectChild :
    (deleteNode deleteChainSession (some "a") "a" 5).1.nodes.map Prod.fst = ["root", "b"] ∧
    lookupNode (deleteNode deleteChainSession (some "a") "a" 5).1.nodes "b" =
      some (mkNode "b" .conversation "" (some "a") ["c"]) ∧
    lookupNode (deleteNode deleteChainSession (some "a") "a" 5).1.nodes "a" = none := by
  refine ⟨rfl, rfl, rfl⟩

/-- C3.  Parent/child symmetry is NOT preserved by every node-store operation:
starting from a fresh session and two `addNode` calls the check holds, but
after `deleteNode` of the mid node `a` it fails — the surviving node `b` still
points at the deleted parent `a`. -/
theorem deleteNode_breaksParentChildSymmetry :
    checkParentChildSymmetry symmetryScenario.nodes = true ∧
    checkParentChildSymmetry (deleteNode symmetryScenario (some "b") "a" 3).1.nodes = false ∧
    lookupNode (deleteNode symmetryScenario (some "b") "a" 3).1.nodes "b" =
      some (mkNode "b" .input "" (some "a") []) ∧
    lookupNode (deleteNode symmetryScenario (some "b") "a" 3).1.nodes "a" = none := by
  refine ⟨rfl, rfl, rfl, rfl⟩

/-- C10 (amended).  After `deleteNode` removes an existing node, the selection
cursor becomes the node's former `parentId` when that is a non-empty string,
and the session's `rootNodeId` otherwise (`parentId` null — or the empty
string, which the JS `||` fallback also sends to the root). -/
theorem deleteNode_selectsFormerParent (s : ChatSession) (sel : Option String)
    (nodeId : String) (now : Int) (n : ChatNode)
    (h : lookupNode s.nodes nodeId = some n) :
    (deleteNode s sel nodeId now).2.1 =
      some (match n.parentId with
            | some p => if p = "" then s.rootNodeId else p
            | none => s.rootNodeId) := by
  simp only [deleteNode, h]

/-- Witness for `deleteNode_selectsFormerParent`: deleting the pending-input
leaf `C` of the chain scenario selects its parent `B`. -/
theorem deleteNode_selectsFormerParent_witness :
    lookupNode pathChainSession.nodes "C" = some (mkNode "C" .input "" (some "B") []) ∧
    (deleteNode pathChainSession (some "C") "C" 2).2.1 = some "B" := by
  refine ⟨rfl, ?_⟩
  simpa using deleteNode_selectsFormerParent pathChainSession (some "C") "C" 2
    (mkNode "C" .input "" (some "B") []) rfl

/-- C10 counterexample.  Node `x` exists and has the non-null former parent id
`""`, yet deleting it selects the session root `"root"`, not `""`: the code's
`parentId || rootNodeId` fallback also triggers on an empty-string parent id,
not only on null. -/
theorem deleteNode_selection_claimFails :
    lookupNode emptyParentSession.nodes "x" = some (mkNode "x" .conversation "" (some "") []) ∧
    (deleteNode emptyParentSession (some "x") "x" 1).2.1 = some "root" ∧
    (some "root" : Option String) ≠ some "" := by
  refine ⟨rfl, rfl, by decide⟩

theorem setDefaultModelConfig_cons (r : ModelConfigRow) (rest : List ModelConfigRow)
    (id : String) :
    setDefaultModelConfig (r :: rest) id =
      (if r.id = id then { r with isDefault := 1 } else { r with isDefault := 0 }) ::
        setDefaultModelConfig rest id := by
  by_cases h : r.id = id <;>
    simp [setDefaultModelConfig, clearAllDefaults, h]

theorem setDefaultModelConfig_filter_notMem (db : List ModelConfigRow) (id : String)
    (h : id ∉ db.map (fun r => r.id)) :
    (setDefaultModelConfig db id).filter (fun r => r.isDefault == 1) = [] := by
  induction db with
  | nil => rfl
  | cons r rest ih =>
      rw [setDefaultModelConfig_cons]
      simp only [List.map_cons, List.mem_cons, not_or] at h
      rw [if_neg (fun hr => h.1 hr.symm)]
      simpa using ih h.2

/-- C9.  When configuration `id` exists in the table (and ids are unique, the
table's primary-key constraint), `setDefaultModelConfig id` leaves exactly one
row — the one with that id — carrying the default flag, and every row's flag
is set iff its id is the given one. -/
theorem setDefaultModelConfig_exclusive (db : List ModelConfigRow) (id : String)
    (hmem : id ∈ db.map (fun r => r.id)) (hnodup : (db.map (fun r => r.id)).Nodup) :
    ((setDefaultModelConfig db id).filter (fun r => r.isDefault == 1)).map (fun r => r.id) =
      [id] ∧
    ∀ r ∈ setDefaultModelConfig db id, (r.isDefault = 1 ↔ r.id = id) := by
  constructor
  · induction db with
    | nil => simp at hmem
    | cons r rest ih =>
        rw [setDefaultModelConfig_cons]
        simp only [List.map_cons, List.mem_cons, List.nodup_cons] at hmem hnodup
        by_cases h : r.id = id
        · rw [if_pos h]
          have hrest : id ∉ rest.map (fun r => r.id) := h ▸ hnodup.1
          rw [List.filter_cons]
          simp [setDefaultModelConfig_filter_notMem rest id hrest, h]
        · rw [if_neg h]
          have hmem' : id ∈ rest.map (fun r => r.id) := by
            rcases hmem with h1 | h2
            · exact absurd h1.symm h
            · exact h2
          rw [List.filter_cons]
          simpa using ih hmem' hnodup.2
  · intro r hr
    rw [setDefaultModelConfig, clearAllDefaults, List.map_map] at hr
    obtain ⟨a, _, rfl⟩ := List.mem_map.1 hr
    by_cases h : a.id = id <;> simp [h]

/-- Witness for `setDefaultModelConfig_exclusive`: switching the default from
`A` to `B` on the concrete two-row table. -/
theorem setDefaultModelConfig_exclusive_witness :
    ((setDefaultModelConfig twoRowConfigTable "B").filter
        (fun r => r.isDefault == 1)).map (fun r => r.id) = ["B"] ∧
    ∀ r ∈ setDefaultModelConfig twoRowConfigTable "B", (r.isDefault = 1 ↔ r.id = "B") :=
  setDefaultModelConfig_exclusive twoRowConfigTable "B" (by decide) (by decide)

theorem lookupNode_setNode_self (m : NodeMap) (id : String) (n : ChatNode) :
    lookupNode (setNode m id n) id = some n := by
  induction m with
  | nil => simp [setNode, lookupNode]
  | cons p rest ih =>
      obtain ⟨k, v⟩ := p
      by_cases h : k = id
      · simp [setNode, h, lookupNode]
      · simp [setNode, h, lookupNode, ih]

theorem lookupNode_setNode_other (m : NodeMap) (id k : String) (n : ChatNode) (h : k ≠ id) :
    lookupNode (setNode m id n) k = lookupNode m k := by
  induction m with
  | nil => simp [setNode, lookupNode, Ne.symm h]
  | cons p rest ih =>
      obtain ⟨k', v⟩ := p
      by_cases h' : k' = id
      · subst h'
        simp [setNode, lookupNode, Ne.symm h]
      · simp only [setNode, if_neg h', lookupNode]
        by_cases h'' : k' = k
        · simp [h'']
        · simp [h'', ih]

theorem contentOfChunks_of_not_has (cs : List Chunk) (h : hasContentChunk cs = false) :
    contentOfChunks cs = "" := by
  induction cs with
  | nil => rfl
  | cons c cs ih =>
      simp only [hasContentChunk, List.any_cons, Bool.or_eq_false_iff] at h
      obtain ⟨h1, h2⟩ := h
      cases hc : c.type
      · simp only [contentOfChunks, hc, String.empty_append]
        exact ih (by simpa [hasContentChunk] using h2)
      · rw [hc] at h1
        simp at h1

theorem mergeChunk_foldl_spec (nodeId : String) (now : Int) (cs : List Chunk) :
    ∀ (acc : StreamAcc) (n : ChatNode),
      lookupNode acc.session.nodes nodeId = some n →
      (cs.foldl (mergeChunk nodeId now) acc).persistLog = acc.persistLog ∧
      (cs.foldl (mergeChunk nodeId now) acc).alerts = acc.alerts ∧
      (cs.foldl (mergeChunk nodeId now) acc).shouldCreateInputNode =
        acc.shouldCreateInputNode ∧
      (cs.foldl (mergeChunk nodeId now) acc).streamedContent =
        acc.streamedContent ++ contentOfChunks cs ∧
      ∃ n', lookupNode (cs.foldl (mergeChunk nodeId now) acc).session.nodes nodeId = some n' ∧
        n'.assistantMessage =
          (if hasContentChunk cs then
              some ((cs.foldl (mergeChunk nodeId now) acc).streamedContent)
            else n.assistantMessage) := by
  induction cs with
  | nil =>
      intro acc n h
      refine ⟨rfl, rfl, rfl, (String.append_empty _).symm, n, h, ?_⟩
      simp [hasContentChunk]
  | cons c cs ih =>
      intro acc n h
      rw [List.foldl_cons]
      cases hc : c.type with
      | thinking =>
          obtain ⟨hl, ha, hs, hsc, n', hn', hass⟩ :=
            ih { acc with
                  session := { acc.session with
                    nodes := setNode acc.session.nodes nodeId
                      (applyUpdates n
                        { thinkingContent := some (some (acc.streamedThinking ++ c.text)) }),
                    updatedAt := now },
                  streamedThinking := acc.streamedThinking ++ c.text }
              (applyUpdates n
                { thinkingContent := some (some (acc.streamedThinking ++ c.text)) })
              (lookupNode_setNode_self _ _ _)
          have hmerge : mergeChunk nodeId now acc c =
              { acc with
                  session := { acc.session with
                    nodes := setNode acc.session.nodes nodeId
                      (applyUpdates n
                        { thinkingContent := some (some (acc.streamedThinking ++ c.text)) }),
                    updatedAt := now },
                  streamedThinking := acc.streamedThinking ++ c.text } := by
            simp [mergeChunk, hc, updateNode, h]
          rw [hmerge]
          refine ⟨hl, ha, hs, ?_, n', hn', ?_⟩
          · rw [hsc]
            simp only [contentOfChunks, hc, String.empty_append]
          · rw [hass]
            have hhc : hasContentChunk (c :: cs) = hasContentChunk cs := by
              simp [hasContentChunk, hc]
            rw [hhc]
            rfl
      | content =>
          obtain ⟨hl, ha, hs, hsc, n', hn', hass⟩ :=
            ih { acc with
                  session := { acc.session with
                    nodes := setNode acc.session.nodes nodeId
                      (applyUpdates n
                        { assistantMessage := some (some (acc.streamedContent ++ c.text)) }),
                    updatedAt := now },
                  streamedContent := acc.streamedContent ++ c.text }
              (applyUpdates n
                { assistantMessage := some (some (acc.streamedContent ++ c.text)) })
              (lookupNode_setNode_self _ _ _)
          have hmerge : mergeChunk nodeId now acc c =
              { acc with
                  session := { acc.session with
                    nodes := setNode acc.session.nodes nodeId
                      (applyUpdates n
                        { assistantMessage := some (some (acc.streamedContent ++ c.text)) }),
                    updatedAt := now },
                  streamedContent := acc.streamedContent ++ c.text } := by
            simp [mergeChunk, hc, updateNode, h]
          rw [hmerge]
          refine ⟨hl, ha, hs, ?_, n', hn', ?_⟩
          · rw [hsc]
            simp only [contentOfChunks, hc, String.append_assoc]
          · have hhc : hasContentChunk (c :: cs) = true := by
              simp [hasContentChunk, hc]
            rw [hass, hhc]
            by_cases hcs : hasContentChunk cs = true
            · simp [hcs]
            · have h0 : contentOfChunks cs = "" :=
                contentOfChunks_of_not_has cs (Bool.eq_false_iff.mpr hcs)
              have hassist :
                  (applyUpdates n
                    { assistantMessage :=
                        some (some (acc.streamedContent ++ c.text)) }).assistantMessage =
                    some (acc.streamedContent ++ c.text) := rfl
              rw [if_neg hcs, hassist, hsc, h0, String.append_empty]
              simp

/-- C4.  During an in-progress stream every chunk merge (`updateNode` with
`saveToDb = false`) updates the in-memory node content while issuing zero
`sessionAPI.updateSession` calls, and the terminal `updateNode(…, true)` after
stream completion issues exactly one call, whose session carries the fully
merged content. -/
theorem streamDurabilityBoundary (s : ChatSession) (nodeId : String)
    (chunks : List Chunk) (now later : Int) (n : ChatNode)
    (h : lookupNode s.nodes nodeId = some n) :
    (mergeChunks s nodeId chunks now).persistLog = [] ∧
    (∃ n', lookupNode (mergeChunks s nodeId chunks now).session.nodes nodeId = some n' ∧
       n'.assistantMessage =
         (if hasContentChunk chunks then some (contentOfChunks chunks)
          else n.assistantMessage)) ∧
    (runCompletedStream s nodeId chunks now later).persistLog.length = 1 ∧
    (∀ ps ∈ (runCompletedStream s nodeId chunks now later).persistLog,
       ∃ n', lookupNode ps.nodes nodeId = some n' ∧
         n'.assistantMessage = some (contentOfChunks chunks)) := by
  obtain ⟨hl, ha, hs, hsc, n', hn', hass⟩ :=
    mergeChunk_foldl_spec nodeId now chunks (initStreamAcc s) n h
  have hsc' : (mergeChunks s nodeId chunks now).streamedContent = contentOfChunks chunks := by
    rw [mergeChunks, hsc]
    exact String.empty_append _
  have hl' : (mergeChunks s nodeId chunks now).persistLog = [] := hl
  have hn'' : lookupNode (mergeChunks s nodeId chunks now).session.nodes nodeId = some n' := hn'
  have hass' : n'.assistantMessage =
      (if hasContentChunk chunks then some (contentOfChunks chunks)
       else n.assistantMessage) := by
    rw [hass]
    by_cases hcc : hasContentChunk chunks = true
    · rw [if_pos hcc, if_pos hcc, ← hsc']
      rfl
    · rw [if_neg hcc, if_neg hcc]
  refine ⟨hl', ⟨n', hn'', hass'⟩, ?_, ?_⟩
  · simp only [runCompletedStream, finalizeCompleted]
    simp [updateNode, hn'', hl']
  · intro ps hps
    simp only [runCompletedStream, finalizeCompleted] at hps
    simp only [updateNode, hn'', hl'] at hps
    simp at hps
    subst hps
    exact ⟨_, lookupNode_setNode_self _ _ _, rfl⟩

/-- Witness for `streamDurabilityBoundary`: streaming the chunks "Hel", "lo"
into node `b` of the concrete scenario. -/
theorem streamDurabilityBoundary_witness :
    (mergeChunks streamScenario "b"
        [⟨ChunkType.content, "Hel"⟩, ⟨ChunkType.content, "lo"⟩] 1).persistLog = [] ∧
    (∃ n', lookupNode (mergeChunks streamScenario "b"
          [⟨ChunkType.content, "Hel"⟩, ⟨ChunkType.content, "lo"⟩] 1).session.nodes "b" =
        some n' ∧
       n'.assistantMessage =
         (if hasContentChunk [⟨ChunkType.content, "Hel"⟩, ⟨ChunkType.content, "lo"⟩] then
             some (contentOfChunks [⟨ChunkType.content, "Hel"⟩, ⟨ChunkType.content, "lo"⟩])
          else ({ mkNode "b" .conversation "hi" (some "root") [] with
                   userMessage := some "hi" } : ChatNode).assistantMessage)) ∧
    (runCompletedStream streamScenario "b"
        [⟨ChunkType.content, "Hel"⟩, ⟨ChunkType.content, "lo"⟩] 1 2).persistLog.length = 1 ∧
    (∀ ps ∈ (runCompletedStream streamScenario "b"
          [⟨ChunkType.content, "Hel"⟩, ⟨ChunkType.content, "lo"⟩] 1 2).persistLog,
       ∃ n', lookupNode ps.nodes "b" = some n' ∧
         n'.assistantMessage =
           some (contentOfChunks [⟨ChunkType.content, "Hel"⟩, ⟨ChunkType.content, "lo"⟩])) :=
  streamDurabilityBoundary streamScenario "b"
    [⟨ChunkType.content, "Hel"⟩, ⟨ChunkType.content, "lo"⟩] 1 2
    ({ mkNode "b" .conversation "hi" (some "root") [] with userMessage := some "hi" }) rfl

theorem cancelStream_spec (nodeId : String) (later : Int) (acc : StreamAcc) (n' : ChatNode)
    (h : lookupNode acc.session.nodes nodeId = some n')
    (hg1 : nodeId ≠ "") (hg2 : acc.streamedContent ≠ "") :
    cancelStream nodeId later acc =
      { acc with
          session := { acc.session with
            nodes := setNode acc.session.nodes nodeId
              (applyUpdates n'
                (cancelUpdates acc.streamedContent acc.streamedThinking later)),
            updatedAt := later },
          persistLog := acc.persistLog ++
            [{ acc.session with
                nodes := setNode acc.session.nodes nodeId
                  (applyUpdates n'
                    (cancelUpdates acc.streamedContent acc.streamedThinking later)),
                updatedAt := later }],
          shouldCreateInputNode := true } := by
  simp [cancelStream, updateNode, h, hg1, hg2]

theorem addNode_freshInput_spec (s : ChatSession) (node : ChatNode) (now : Int)
    (pid : String) (p : ChatNode)
    (hpid : node.parentId = some pid) (hne : pid ≠ "") (hfresh : node.id ≠ pid)
    (hp : lookupNode s.nodes pid = some p) :
    addNode s node now =
      ({ s with
          nodes := setNode (setNode s.nodes node.id node) pid
            { p with children := p.children ++ [node.id] },
          updatedAt := now },
       [{ s with
          nodes := setNode (setNode s.nodes node.id node) pid
            { p with children := p.children ++ [node.id] },
          updatedAt := now }]) := by
  have h1 : lookupNode (setNode s.nodes node.id node) pid = some p :=
    (lookupNode_setNode_other _ _ _ _ (Ne.symm hfresh)).trans hp
  simp [addNode, hpid, strOptTruthy, hne, h1]

/-- C5.  Cancelling a generation after content chunks arrived persists, in
exactly one `sessionAPI.updateSession` call from the stream lifecycle, the
concatenation of all received content chunks with the visible stop marker
appended; the same content is the node's in-memory state (partial output is
not discarded); and the `finally` block then materializes a fresh
pending-input child beneath the node (its own `addNode` persisting the
session as every coordinator mutation does). -/
theorem cancellationPreservesPartialOutput (s : ChatSession) (nodeId : String)
    (chunks : List Chunk) (now later : Int) (userMsg : String) (nodeX baseY : ℚ)
    (inputId : String) (n : ChatNode)
    (h : lookupNode s.nodes nodeId = some n)
    (hid : nodeId ≠ "") (hcontent : contentOfChunks chunks ≠ "")
    (hfresh : inputId ≠ nodeId) :
    (runCancelledStream s nodeId chunks now later).persistLog.length = 1 ∧
    (∀ ps ∈ (runCancelledStream s nodeId chunks now later).persistLog,
       ∃ n', lookupNode ps.nodes nodeId = some n' ∧
         n'.assistantMessage = some (contentOfChunks chunks ++ stopMarker)) ∧
    (∃ n', lookupNode (runCancelledStream s nodeId chunks now later).session.nodes nodeId =
        some n' ∧ n'.assistantMessage = some (contentOfChunks chunks ++ stopMarker)) ∧
    (runCancelledStream s nodeId chunks now later).shouldCreateInputNode = true ∧
    (∃ inode, lookupNode (finallyCreateInput (runCancelledStream s nodeId chunks now later)
          nodeId userMsg nodeX baseY later inputId).session.nodes inputId = some inode ∧
       inode.type = NodeType.input ∧ inode.parentId = some nodeId) ∧
    (∃ p, lookupNode (finallyCreateInput (runCancelledStream s nodeId chunks now later)
          nodeId userMsg nodeX baseY later inputId).session.nodes nodeId = some p ∧
       inputId ∈ p.children) := by
  obtain ⟨hl, ha, hs, hsc, n', hn', hass⟩ :=
    mergeChunk_foldl_spec nodeId now chunks (initStreamAcc s) n h
  have hsc' : (mergeChunks s nodeId chunks now).streamedContent = contentOfChunks chunks := by
    rw [mergeChunks, hsc]
    exact String.empty_append _
  have hg2 : (mergeChunks s nodeId chunks now).streamedContent ≠ "" := by
    rw [hsc']
    exact hcontent
  have hn'' : lookupNode (mergeChunks s nodeId chunks now).session.nodes nodeId = some n' := hn'
  have hl' : (mergeChunks s nodeId chunks now).persistLog = [] := hl
  have hM : runCancelledStream s nodeId chunks now later =
      cancelStream nodeId later (mergeChunks s nodeId chunks now) := rfl
  have hC := cancelStream_spec nodeId later (mergeChunks s nodeId chunks now) n' hn'' hid hg2
  rw [hM, hC]
  have hassist :
      (applyUpdates n'
        (cancelUpdates (mergeChunks s nodeId chunks now).streamedContent
          (mergeChunks s nodeId chunks now).streamedThinking later)).assistantMessage =
      some (contentOfChunks chunks ++ stopMarker) := by
    rw [← hsc']
    rfl
  refine ⟨?_, ?_, ?_, ?_, ?_, ?_⟩
  · simp [hl']
  · intro ps hps
    simp only [hl', List.nil_append, List.mem_singleton] at hps
    subst hps
    exact ⟨_, lookupNode_setNode_self _ _ _, hassist⟩
  · exact ⟨_, lookupNode_setNode_self _ _ _, hassist⟩
  · rfl
  · have hAdd := addNode_freshInput_spec
      ({ (mergeChunks s nodeId chunks now).session with
          nodes := setNode (mergeChunks s nodeId chunks now).session.nodes nodeId
            (applyUpdates n'
              (cancelUpdates (mergeChunks s nodeId chunks now).streamedContent
                (mergeChunks s nodeId chunks now).streamedThinking later)),
          updatedAt := later })
      ({ id := inputId, type := .input, content := "", parentId := some nodeId,
         children := [], model := "", timestamp := later,
         position := ⟨nodeX, baseY + (120 +
           estimateContentHeight userMsg +
           estimateContentHeight (mergeChunks s nodeId chunks now).streamedContent + 100)⟩,
         userMessage := none, assistantMessage := none, thinkingContent := none,
         quotedContent := none })
      later nodeId _ rfl hid hfresh (lookupNode_setNode_self _ _ _)
    refine ⟨{ id := inputId, type := .input, content := "", parentId := some nodeId,
              children := [], model := "", timestamp := later,
              position := ⟨nodeX, baseY + (120 +
                estimateContentHeight userMsg +
                estimateContentHeight
                  (mergeChunks s nodeId chunks now).streamedContent + 100)⟩,
              userMessage := none, assistantMessage := none, thinkingContent := none,
              quotedContent := none }, ?_, rfl, rfl⟩
    simp [finallyCreateInput, hid, hAdd]
    rw [lookupNode_setNode_other _ _ _ _ hfresh]
    exact lookupNode_setNode_self _ _ _
  · have hAdd := addNode_freshInput_spec
      ({ (mergeChunks s nodeId chunks now).session with
          nodes := setNode (mergeChunks s nodeId chunks now).session.nodes nodeId
            (applyUpdates n'
              (cancelUpdates (mergeChunks s nodeId chunks now).streamedContent
                (mergeChunks s nodeId chunks now).streamedThinking later)),
          updatedAt := later })
      ({ id := inputId, type := .input, content := "", parentId := some nodeId,
         children := [], model := "", timestamp := later,
         position := ⟨nodeX, baseY + (120 +
           estimateContentHeight userMsg +
           estimateContentHeight (mergeChunks s nodeId chunks now).streamedContent + 100)⟩,
         userMessage := none, assistantMessage := none, thinkingContent := none,
         quotedContent := none })
      later nodeId _ rfl hid hfresh (lookupNode_setNode_self _ _ _)
    refine ⟨{ applyUpdates n'
                (cancelUpdates (mergeChunks s nodeId chunks now).streamedContent
                  (mergeChunks s nodeId chunks now).streamedThinking later) with
              children := (applyUpdates n'
                (cancelUpdates (mergeChunks s nodeId chunks now).streamedContent
                  (mergeChunks s nodeId chunks now).streamedThinking later)).children ++
                [inputId] }, ?_, ?_⟩
    · simp [finallyCreateInput, hid, hAdd]
      exact lookupNode_setNode_self _ _ _
    · simp

/-- Witness for `cancellationPreservesPartialOutput`: cancelling after
chunks "Hel" and "lo" on the concrete scenario session. -/
theorem cancellationPreservesPartialOutput_witness :
    ("b" : String) ≠ "" ∧ contentOfChunks helChunks ≠ "" ∧
    (runCancelledStream streamScenario "b" helChunks 1 2).persistLog.length = 1 ∧
    (∀ ps ∈ (runCancelledStream streamScenario "b" helChunks 1 2).persistLog,
       ∃ n', lookupNode ps.nodes "b" = some n' ∧
         n'.assistantMessage = some (contentOfChunks helChunks ++ stopMarker)) ∧
    (∃ n', lookupNode (runCancelledStream streamScenario "b" helChunks 1 2).session.nodes "b" =
        some n' ∧ n'.assistantMessage = some (contentOfChunks helChunks ++ stopMarker)) ∧
    (runCancelledStream streamScenario "b" helChunks 1 2).shouldCreateInputNode = true ∧
    (∃ inode, lookupNode (finallyCreateInput (runCancelledStream streamScenario "b" helChunks 1 2)
          "b" "hi" 0 0 2 "new").session.nodes "new" = some inode ∧
       inode.type = NodeType.input ∧ inode.parentId = some "b") ∧
    (∃ p, lookupNode (finallyCreateInput (runCancelledStream streamScenario "b" helChunks 1 2)
          "b" "hi" 0 0 2 "new").session.nodes "b" = some p ∧
       "new" ∈ p.children) := by
  refine ⟨by decide, by decide, ?_⟩
  have := cancellationPreservesPartialOutput streamScenario "b" helChunks 1 2 "hi" 0 0 "new"
    ({ mkNode "b" .conversation "hi" (some "root") [] with userMessage := some "hi" })
    rfl (by decide) (by decide) (by decide)
  exact this

/-- C6 counterexample.  After a transport failure following the content chunk
"He", the in-memory node still carries `assistantMessage = some "He"`: the
already-merged partial content is NOT discarded from the node's state (it is
merely never persisted — the `catch` branch for non-abort errors leaves the
session untouched). -/
theorem failureRetainsPartialContent :
    lookupNode streamScenario.nodes "b" =
      some ({ mkNode "b" .conversation "hi" (some "root") [] with userMessage := some "hi" }) ∧
    lookupNode (runFailedStream streamScenario "b"
        [⟨ChunkType.content, "He"⟩] 1 "boom").session.nodes "b" =
      some ({ mkNode "b" .conversation "hi" (some "root") [] with
               userMessage := some "hi", assistantMessage := some "He" }) ∧
    (some "He" : Option String) ≠ none := by
  refine ⟨rfl, rfl, by decide⟩

/-- C6 (amended).  On a non-abort generation failure no pending-input child is
created (the `finally` block is a no-op), the failure is surfaced as a
descriptive alert, and zero persistence calls are made — so the partial
content is not durably saved — but the already-merged partial content remains
in the in-memory node state (unlike what the spec states). -/
theorem failureNoChildNoPersist (s : ChatSession) (nodeId : String)
    (chunks : List Chunk) (now later : Int) (msg userMsg : String) (nodeX baseY : ℚ)
    (inputId : String) (n : ChatNode)
    (h : lookupNode s.nodes nodeId = some n) :
    (runFailedStream s nodeId chunks now msg).persistLog = [] ∧
    (runFailedStream s nodeId chunks now msg).shouldCreateInputNode = false ∧
    (runFailedStream s nodeId chunks now msg).alerts = ["发送失败: " ++ msg] ∧
    finallyCreateInput (runFailedStream s nodeId chunks now msg) nodeId userMsg nodeX baseY
      later inputId = runFailedStream s nodeId chunks now msg ∧
    (∃ n', lookupNode (runFailedStream s nodeId chunks now msg).session.nodes nodeId = some n' ∧
       n'.assistantMessage =
         (if hasContentChunk chunks then some (contentOfChunks chunks)
          else n.assistantMessage)) := by
  obtain ⟨hl, ha, hs, hsc, n', hn', hass⟩ :=
    mergeChunk_foldl_spec nodeId now chunks (initStreamAcc s) n h
  have hrun : runFailedStream s nodeId chunks now msg =
      failStream msg (mergeChunks s nodeId chunks now) := rfl
  have hl' : (runFailedStream s nodeId chunks now msg).persistLog = [] := by
    rw [hrun, failStream]
    exact hl
  have hs' : (runFailedStream s nodeId chunks now msg).shouldCreateInputNode = false := by
    rw [hrun, failStream]
    exact hs
  have ha' : (runFailedStream s nodeId chunks now msg).alerts = ["发送失败: " ++ msg] := by
    rw [hrun, failStream]
    show (mergeChunks s nodeId chunks now).alerts ++ _ = _
    rw [mergeChunks, ha]
    rfl
  have hsc' : (mergeChunks s nodeId chunks now).streamedContent = contentOfChunks chunks := by
    rw [mergeChunks, hsc]
    exact String.empty_append _
  refine ⟨hl', hs', ha', ?_, ?_⟩
  · simp [finallyCreateInput, hs']
  · refine ⟨n', hn', ?_⟩
    rw [hass]
    by_cases hcc : hasContentChunk chunks = true
    · rw [if_pos hcc, if_pos hcc, ← hsc']
      rfl
    · rw [if_neg hcc, if_neg hcc]

/-- Witness for `failureNoChildNoPersist`: a failure after the chunk "He" on
the concrete scenario session. -/
theorem failureNoChildNoPersist_witness :
    (runFailedStream streamScenario "b" [⟨ChunkType.content, "He"⟩] 1 "boom").persistLog = [] ∧
    (runFailedStream streamScenario "b"
        [⟨ChunkType.content, "He"⟩] 1 "boom").shouldCreateInputNode = false ∧
    (runFailedStream streamScenario "b"
        [⟨ChunkType.content, "He"⟩] 1 "boom").alerts = ["发送失败: " ++ "boom"] ∧
    finallyCreateInput (runFailedStream streamScenario "b" [⟨ChunkType.content, "He"⟩] 1 "boom")
      "b" "hi" 0 0 2 "new" = runFailedStream streamScenario "b" [⟨ChunkType.content, "He"⟩] 1 "boom" ∧
    (∃ n', lookupNode (runFailedStream streamScenario "b"
          [⟨ChunkType.content, "He"⟩] 1 "boom").session.nodes "b" = some n' ∧
       n'.assistantMessage =
         (if hasContentChunk [⟨ChunkType.content, "He"⟩] then
             some (contentOfChunks [⟨ChunkType.content, "He"⟩])
          else ({ mkNode "b" .conversation "hi" (some "root") [] with
                   userMessage := some "hi" } : ChatNode).assistantMessage)) :=
  failureNoChildNoPersist streamScenario "b" [⟨ChunkType.content, "He"⟩] 1 2 "boom" "hi" 0 0 "new"
    ({ mkNode "b" .conversation "hi" (some "root") [] with userMessage := some "hi" }) rfl

/-- Structural induction for `LayoutNode` with the membership-based child
hypothesis. -/
theorem layoutNode_ind (P : LayoutNode → Prop)
    (step : ∀ id node children depth x y w h,
      (∀ c ∈ children, P c) → P ⟨id, node, children, depth, x, y, w, h⟩) :
    ∀ t, P t :=
  fun t => @LayoutNode.rec P (fun l => ∀ c ∈ l, P c)
    (fun id node children depth x y w h ih => step id node children depth x y w h ih)
    (fun c hc => absurd hc (List.not_mem_nil c))
    (fun _ _ ihh iht c hc =>
      match hc with
      | .head _ => ihh
      | .tail _ h => iht c h)
    t

theorem layoutTree_def (hs vs : ℚ) (id : String) (node : ChatNode)
    (children : List LayoutNode) (depth0 : Nat) (x0 y0 w h x y : ℚ) (d : Nat) :
    layoutTree hs vs ⟨id, node, children, depth0, x0, y0, w, h⟩ x y d =
      ⟨id, node,
        layoutChildren hs vs children
          (x - (subtreeWidthSum hs children + ((children.length - 1 : ℕ) : ℚ) * hs) / 2)
          (y + h + vs) (d + 1),
        d, x, y, w, h⟩ := by
  simp [layoutTree]

theorem layoutChildren_nil (hs vs : ℚ) (curX childY : ℚ) (d : Nat) :
    layoutChildren hs vs [] curX childY d = [] := by
  simp [layoutChildren]

theorem layoutChildren_cons (hs vs : ℚ) (c : LayoutNode) (cs : List LayoutNode)
    (curX childY : ℚ) (d : Nat) :
    layoutChildren hs vs (c :: cs) curX childY d =
      layoutTree hs vs c (curX + subtreeWidth hs c / 2) childY d ::
        layoutChildren hs vs cs (curX + subtreeWidth hs c + hs) childY d := by
  simp [layoutChildren]

theorem subtreeWidth_leaf (hs : ℚ) (id : String) (node : ChatNode)
    (depth : Nat) (x y w h : ℚ) :
    subtreeWidth hs ⟨id, node, [], depth, x, y, w, h⟩ = w := by
  simp [subtreeWidth]

theorem subtreeWidth_node (hs : ℚ) (id : String) (node : ChatNode) (c : LayoutNode)
    (cs : List LayoutNode) (depth : Nat) (x y w h : ℚ) :
    subtreeWidth hs ⟨id, node, c :: cs, depth, x, y, w, h⟩ =
      max w (subtreeWidthSum hs (c :: cs) + (((c :: cs).length - 1 : ℕ) : ℚ) * hs) := by
  simp [subtreeWidth]

theorem subtreeWidthSum_nil (hs : ℚ) : subtreeWidthSum hs [] = 0 := by
  simp [subtreeWidthSum]

theorem subtreeWidthSum_cons (hs : ℚ) (c : LayoutNode) (cs : List LayoutNode) :
    subtreeWidthSum hs (c :: cs) = subtreeWidth hs c + subtreeWidthSum hs cs := by
  simp [subtreeWidthSum]

theorem width_le_subtreeWidth (hs : ℚ) (t : LayoutNode) : t.width ≤ subtreeWidth hs t := by
  obtain ⟨id, node, children, depth, x, y, w, h⟩ := t
  cases children with
  | nil => rw [subtreeWidth_leaf]
  | cons c cs =>
      rw [subtreeWidth_node]
      simp only [ge_iff_le]
      exact le_max_left _ _

theorem layoutTree_x (hs vs : ℚ) (t : LayoutNode) (x y : ℚ) (d : Nat) :
    (layoutTree hs vs t x y d).x = x := by
  obtain ⟨id, node, children, depth, x0, y0, w, h⟩ := t
  rw [layoutTree_def]

theorem layoutTree_width (hs vs : ℚ) (t : LayoutNode) (x y : ℚ) (d : Nat) :
    (layoutTree hs vs t x y d).width = t.width := by
  obtain ⟨id, node, children, depth, x0, y0, w, h⟩ := t
  rw [layoutTree_def]

theorem subtreeWidthSum_layoutChildren_aux (hs vs : ℚ) (cs : List LayoutNode)
    (hc : ∀ c ∈ cs, ∀ (x y : ℚ) (d : Nat),
      subtreeWidth hs (layoutTree hs vs c x y d) = subtreeWidth hs c) :
    ∀ (curX childY : ℚ) (d : Nat),
      subtreeWidthSum hs (layoutChildren hs vs cs curX childY d) = subtreeWidthSum hs cs ∧
      (layoutChildren hs vs cs curX childY d).length = cs.length := by
  induction cs with
  | nil => intro curX childY d; simp [layoutChildren_nil, subtreeWidthSum_nil]
  | cons c cs ih =>
      intro curX childY d
      have hhead := hc c (by simp)
      have htail := ih (fun c' hc' => hc c' (List.mem_cons_of_mem _ hc'))
        (curX + subtreeWidth hs c + hs) childY d
      rw [layoutChildren_cons, subtreeWidthSum_cons, subtreeWidthSum_cons]
      constructor
      · rw [hhead, htail.1]
      · simp [htail.2]

theorem subtreeWidth_layoutTree (hs vs : ℚ) (t : LayoutNode) :
    ∀ (x y : ℚ) (d : Nat),
      subtreeWidth hs (layoutTree hs vs t x y d) = subtreeWidth hs t := by
  induction t using layoutNode_ind with
  | step id node children depth x0 y0 w h ihc =>
      intro x y d
      rw [layoutTree_def]
      obtain ⟨hsum, hlen⟩ := subtreeWidthSum_layoutChildren_aux hs vs children ihc
        (x - (subtreeWidthSum hs children +
          ((children.length - 1 : ℕ) : ℚ) * hs) / 2) (y + h + vs) (d + 1)
      cases children with
      | nil => rw [layoutChildren_nil, subtreeWidth_leaf, subtreeWidth_leaf]
      | cons c cs =>
          rw [layoutChildren_cons]
          rw [layoutChildren_cons] at hsum hlen
          rw [subtreeWidth_node, subtreeWidth_node, hsum, hlen]

theorem layoutChildren_left_bound (hs vs : ℚ) (hhs : 0 ≤ hs) :
    ∀ (cs : List LayoutNode) (curX childY : ℚ) (d : Nat),
      (∀ c ∈ cs, 0 ≤ subtreeWidth hs c) →
      ∀ r ∈ layoutChildren hs vs cs curX childY d, curX ≤ intervalLeft hs r := by
  intro cs
  induction cs with
  | nil =>
      intro curX childY d hw r hr
      rw [layoutChildren_nil] at hr
      cases hr
  | cons c cs ih =>
      intro curX childY d hw r hr
      rw [layoutChildren_cons] at hr
      rcases List.mem_cons.mp hr with rfl | hr'
      · rw [intervalLeft, layoutTree_x, subtreeWidth_layoutTree]
        linarith
      · have hwc := hw c (List.mem_cons_self c cs)
        have htail := ih (curX + subtreeWidth hs c + hs) childY d
          (fun c' h' => hw c' (List.mem_cons_of_mem _ h')) r hr'
        linarith

theorem layoutChildren_pairwise (hs vs : ℚ) (hhs : 0 < hs) :
    ∀ (cs : List LayoutNode) (curX childY : ℚ) (d : Nat),
      (∀ c ∈ cs, 0 ≤ subtreeWidth hs c) →
      (layoutChildren hs vs cs curX childY d).Pairwise
        (fun a b => intervalRight hs a < intervalLeft hs b) := by
  intro cs
  induction cs with
  | nil =>
      intro curX childY d hw
      rw [layoutChildren_nil]
      exact List.Pairwise.nil
  | cons c cs ih =>
      intro curX childY d hw
      rw [layoutChildren_cons]
      refine List.Pairwise.cons ?_
        (ih _ _ _ (fun c' h' => hw c' (List.mem_cons_of_mem _ h')))
      intro r hr
      have hb := layoutChildren_left_bound hs vs (le_of_lt hhs) cs
        (curX + subtreeWidth hs c + hs) childY d
        (fun c' h' => hw c' (List.mem_cons_of_mem _ h')) r hr
      rw [intervalRight, layoutTree_x, subtreeWidth_layoutTree]
      have hwc := hw c (List.mem_cons_self c cs)
      linarith

theorem layoutChildren_head (hs vs : ℚ) (c : LayoutNode) (cs : List LayoutNode)
    (curX childY : ℚ) (d : Nat) :
    ∃ a, (layoutChildren hs vs (c :: cs) curX childY d).head? = some a ∧
      intervalLeft hs a = curX := by
  rw [layoutChildren_cons]
  refine ⟨_, rfl, ?_⟩
  rw [intervalLeft, layoutTree_x, subtreeWidth_layoutTree]
  ring

theorem layoutChildren_last (hs vs : ℚ) :
    ∀ (cs : List LayoutNode) (c : LayoutNode) (curX childY : ℚ) (d : Nat),
      ∃ b, (layoutChildren hs vs (c :: cs) curX childY d).getLast? = some b ∧
        intervalRight hs b = curX + spanWidth hs (c :: cs) := by
  intro cs
  induction cs with
  | nil =>
      intro c curX childY d
      rw [layoutChildren_cons, layoutChildren_nil]
      refine ⟨layoutTree hs vs c (curX + subtreeWidth hs c / 2) childY d, by simp, ?_⟩
      rw [intervalRight, layoutTree_x, subtreeWidth_layoutTree, spanWidth,
        subtreeWidthSum_cons, subtreeWidthSum_nil]
      simp
      ring
  | cons c' cs' ih =>
      intro c curX childY d
      obtain ⟨b, hb, hr⟩ := ih c' (curX + subtreeWidth hs c + hs) childY d
      rw [layoutChildren_cons]
      refine ⟨b, ?_, ?_⟩
      · rw [layoutChildren_cons]
        rw [List.getLast?_cons_cons]
        rw [← layoutChildren_cons]
        exact hb
      · rw [hr, spanWidth, spanWidth, subtreeWidthSum_cons hs c (c' :: cs'),
          subtreeWidthSum_cons hs c' cs']
        simp only [List.length_cons, Nat.add_sub_cancel]
        push_cast
        ring

theorem subtreesOf_def (t : LayoutNode) : subtreesOf t = t :: subtreesOfList t.children := by
  obtain ⟨id, node, children, depth, x, y, w, h⟩ := t
  simp [subtreesOf]

theorem subtreesOfList_nil : subtreesOfList [] = [] := by
  simp [subtreesOfList]

theorem subtreesOfList_cons (c : LayoutNode) (cs : List LayoutNode) :
    subtreesOfList (c :: cs) = subtreesOf c ++ subtreesOfList cs := by
  simp [subtreesOfList]

theorem mem_subtreesOfList (u : LayoutNode) :
    ∀ cs : List LayoutNode, u ∈ subtreesOfList cs ↔ ∃ c ∈ cs, u ∈ subtreesOf c := by
  intro cs
  induction cs with
  | nil => simp [subtreesOfList_nil]
  | cons c cs ih =>
      rw [subtreesOfList_cons]
      simp only [List.mem_append, ih, List.mem_cons]
      constructor
      · rintro (h | ⟨c', hc', hu⟩)
        · exact ⟨c, Or.inl rfl, h⟩
        · exact ⟨c', Or.inr hc', hu⟩
      · rintro ⟨c', hc' | hc', hu⟩
        · exact Or.inl (hc' ▸ hu)
        · exact Or.inr ⟨c', hc', hu⟩

theorem self_mem_subtreesOf (t : LayoutNode) : t ∈ subtreesOf t := by
  rw [subtreesOf_def]
  exact List.mem_cons_self t _

theorem child_subtrees_subset (t : LayoutNode) (c : LayoutNode) (hc : c ∈ t.children) :
    ∀ u ∈ subtreesOf c, u ∈ subtreesOf t := by
  intro u hu
  rw [subtreesOf_def]
  exact List.mem_cons_of_mem _ ((mem_subtreesOfList u t.children).mpr ⟨c, hc, hu⟩)

theorem mem_layoutChildren (hs vs : ℚ) :
    ∀ (cs : List LayoutNode) (curX childY : ℚ) (d : Nat) (r : LayoutNode),
      r ∈ layoutChildren hs vs cs curX childY d →
      ∃ c ∈ cs, ∃ cx, r = layoutTree hs vs c cx childY d := by
  intro cs
  induction cs with
  | nil =>
      intro curX childY d r hr
      rw [layoutChildren_nil] at hr
      cases hr
  | cons c cs ih =>
      intro curX childY d r hr
      rw [layoutChildren_cons] at hr
      rcases List.mem_cons.mp hr with rfl | hr'
      · exact ⟨c, List.mem_cons_self c cs, _, rfl⟩
      · obtain ⟨c', hc', cx, rfl⟩ := ih _ _ _ _ hr'
        exact ⟨c', List.mem_cons_of_mem _ hc', cx, rfl⟩

/-- The core geometric lemma: in a laid-out tree all of whose nodes carry the
fixed width 600, every subtree's children have pairwise disjoint (strictly
separated, left-to-right) bounding intervals, and every subtree is centered
over the combined span of its children. -/
theorem layoutTree_separation (hs vs : ℚ) (hhs : 0 < hs) :
    ∀ (t : LayoutNode), (∀ u ∈ subtreesOf t, u.width = 600) →
      ∀ (x y : ℚ) (d : Nat) (u : LayoutNode),
        u ∈ subtreesOf (layoutTree hs vs t x y d) →
        u.children.Pairwise (fun a b => intervalRight hs a < intervalLeft hs b) ∧
        centeredOverChildren hs u := by
  intro t
  induction t using layoutNode_ind with
  | step id node children depth x0 y0 w h ihc =>
      intro hw x y d u hu
      have hwpos : ∀ c ∈ children, 0 ≤ subtreeWidth hs c := by
        intro c hc
        have h6 : c.width = 600 := hw c
          (child_subtrees_subset _ c hc c (self_mem_subtreesOf c))
        have := width_le_subtreeWidth hs c
        rw [h6] at this
        linarith
      rw [layoutTree_def, subtreesOf_def] at hu
      rcases List.mem_cons.mp hu with rfl | hu'
      · constructor
        · exact layoutChildren_pairwise hs vs hhs children _ _ _ hwpos
        · intro a b hha hhb
          cases children with
          | nil =>
              rw [layoutChildren_nil] at hha
              cases hha
          | cons c cs =>
              obtain ⟨a', ha', hal⟩ := layoutChildren_head hs vs c cs
                (x - (subtreeWidthSum hs (c :: cs) +
                  (((c :: cs).length - 1 : ℕ) : ℚ) * hs) / 2) (y + h + vs) (d + 1)
              obtain ⟨b', hb', hbr⟩ := layoutChildren_last hs vs cs c
                (x - (subtreeWidthSum hs (c :: cs) +
                  (((c :: cs).length - 1 : ℕ) : ℚ) * hs) / 2) (y + h + vs) (d + 1)
              have haa : a = a' := by
                have := hha.symm.trans ha'
                exact Option.some_injective _ this
              have hbb : b = b' := by
                have := hhb.symm.trans hb'
                exact Option.some_injective _ this
              subst haa
              subst hbb
              show x = _
              rw [hal, hbr, spanWidth]
              ring
      · rw [mem_subtreesOfList] at hu'
        obtain ⟨r, hr, hur⟩ := hu'
        obtain ⟨c, hcmem, cx, rfl⟩ := mem_layoutChildren hs vs children _ _ _ r hr
        exact ihc c hcmem
          (fun v hv => hw v (child_subtrees_subset _ c hcmem v hv)) cx _ (d + 1) u hur

theorem mapM_option_mem {α β : Type} (f : α → Option β) :
    ∀ (l : List α) (res : List β), l.mapM f = some res → ∀ b ∈ res, ∃ a ∈ l, f a = some b := by
  intro l
  induction l with
  | nil =>
      intro res h b hb
      simp only [List.mapM_nil, Option.pure_def, Option.some.injEq] at h
      subst h
      cases hb
  | cons a l ih =>
      intro res h b hb
      rw [List.mapM_cons] at h
      cases hfa : f a with
      | none => rw [hfa] at h; simp at h
      | some b0 =>
          rw [hfa] at h
          cases hrest : l.mapM f with
          | none => rw [hrest] at h; simp at h
          | some res0 =>
              rw [hrest] at h
              simp only [Option.pure_def, Option.bind_eq_bind, Option.some_bind,
                Option.some.injEq] at h
              subst h
              rcases List.mem_cons.mp hb with rfl | hb'
              · exact ⟨a, List.mem_cons_self a l, hfa⟩
              · obtain ⟨a', ha', hfa'⟩ := ih res0 hrest b hb'
                exact ⟨a', List.mem_cons_of_mem _ ha', hfa'⟩

theorem buildTreeF_widths :
    ∀ (fuel : Nat) (nodes : NodeMap) (rootId : String) (t : LayoutNode),
      buildTreeF fuel nodes rootId = some t → ∀ u ∈ subtreesOf t, u.width = 600 := by
  intro fuel
  induction fuel with
  | zero =>
      intro nodes rootId t h
      simp [buildTreeF] at h
  | succ fuel ih =>
      intro nodes rootId t h
      rw [buildTreeF] at h
      split at h
      · exact absurd h (by simp)
      · rename_i node hlook
        split at h
        · exact absurd h (by simp)
        · rename_i children hmap
          obtain rfl := (Option.some.inj h).symm
          intro u hu
          rw [subtreesOf_def] at hu
          rcases List.mem_cons.mp hu with rfl | hu'
          · rfl
          · rw [mem_subtreesOfList] at hu'
            obtain ⟨c, hc, huc⟩ := hu'
            obtain ⟨cid, _, hcid⟩ :=
              mapM_option_mem (buildTreeF fuel nodes) _ children hmap c hc
            exact ih nodes cid c hcid u huc

theorem lookupPos_setPos_self (m : List (String × Pos)) (id : String) (p : Pos) :
    lookupPos (setPos m id p) id = some p := by
  induction m with
  | nil => simp [setPos, lookupPos]
  | cons q rest ih =>
      obtain ⟨k, v⟩ := q
      by_cases h : k = id
      · simp [setPos, h, lookupPos]
      · simp [setPos, h, lookupPos, ih]

theorem lookupPos_setPos_other (m : List (String × Pos)) (id k : String) (p : Pos)
    (h : k ≠ id) : lookupPos (setPos m id p) k = lookupPos m k := by
  induction m with
  | nil => simp [setPos, lookupPos, Ne.symm h]
  | cons q rest ih =>
      obtain ⟨k', v⟩ := q
      by_cases h' : k' = id
      · subst h'
        simp [setPos, lookupPos, Ne.symm h]
      · simp only [setPos, if_neg h', lookupPos]
        by_cases h'' : k' = k
        · simp [h'']
        · simp [h'', ih]

theorem collectPositions_def (id : String) (node : ChatNode) (children : List LayoutNode)
    (depth : Nat) (x y w h : ℚ) (acc : List (String × Pos)) :
    collectPositions ⟨id, node, children, depth, x, y, w, h⟩ acc =
      collectPositionsList children (setPos acc id ⟨x, y⟩) := by
  simp [collectPositions]

theorem collectPositionsList_nil (acc : List (String × Pos)) :
    collectPositionsList [] acc = acc := by
  simp [collectPositionsList]

theorem collectPositionsList_cons (c : LayoutNode) (cs : List LayoutNode)
    (acc : List (String × Pos)) :
    collectPositionsList (c :: cs) acc = collectPositionsList cs (collectPositions c acc) := by
  simp [collectPositionsList]

theorem treeIds_def (t : LayoutNode) : treeIds t = t.id :: treeIdsList t.children := by
  obtain ⟨id, node, children, depth, x, y, w, h⟩ := t
  simp [treeIds]

theorem treeIdsList_nil : treeIdsList [] = [] := by
  simp [treeIdsList]

theorem treeIdsList_cons (c : LayoutNode) (cs : List LayoutNode) :
    treeIdsList (c :: cs) = treeIds c ++ treeIdsList cs := by
  simp [treeIdsList]

theorem mem_treeIds (v : LayoutNode) :
    ∀ t : LayoutNode, v ∈ subtreesOf t → v.id ∈ treeIds t := by
  intro t
  induction t using layoutNode_ind with
  | step id node children depth x y w h ihc =>
      intro hv
      rw [subtreesOf_def] at hv
      rw [treeIds_def]
      rcases List.mem_cons.mp hv with rfl | hv'
      · exact List.mem_cons_self _ _
      · rw [mem_subtreesOfList] at hv'
        obtain ⟨c, hc, hvc⟩ := hv'
        refine List.mem_cons_of_mem _ ?_
        have : v.id ∈ treeIds c := ihc c hc hvc
        clear ihc hv
        induction children with
        | nil => cases hc
        | cons c0 cs ihl =>
            rw [treeIdsList_cons, List.mem_append]
            rcases List.mem_cons.mp hc with rfl | hc'
            · exact Or.inl this
            · exact Or.inr (ihl hc')

theorem collectPositionsList_preserve :
    ∀ (cs : List LayoutNode),
      (∀ c ∈ cs, ∀ (acc : List (String × Pos)) (k : String), k ∉ treeIds c →
        lookupPos (collectPositions c acc) k = lookupPos acc k) →
      ∀ (acc : List (String × Pos)) (k : String), k ∉ treeIdsList cs →
        lookupPos (collectPositionsList cs acc) k = lookupPos acc k := by
  intro cs
  induction cs with
  | nil =>
      intro _ acc k _
      rw [collectPositionsList_nil]
  | cons c cs ih =>
      intro hc acc k hk
      rw [treeIdsList_cons] at hk
      simp only [List.mem_append, not_or] at hk
      rw [collectPositionsList_cons,
        ih (fun c' h' => hc c' (List.mem_cons_of_mem _ h')) _ k hk.2,
        hc c (List.mem_cons_self c cs) acc k hk.1]

theorem collectPositions_preserve :
    ∀ (t : LayoutNode) (acc : List (String × Pos)) (k : String), k ∉ treeIds t →
      lookupPos (collectPositions t acc) k = lookupPos acc k := by
  intro t
  induction t using layoutNode_ind with
  | step id node children depth x y w h ihc =>
      intro acc k hk
      rw [treeIds_def] at hk
      simp only [List.mem_cons, not_or] at hk
      rw [collectPositions_def,
        collectPositionsList_preserve children ihc _ k hk.2,
        lookupPos_setPos_other _ _ _ _ hk.1]

theorem collectPositionsList_value :
    ∀ (cs : List LayoutNode),
      (∀ c ∈ cs, (treeIds c).Nodup → ∀ (acc : List (String × Pos)),
        ∀ v ∈ subtreesOf c, lookupPos (collectPositions c acc) v.id = some ⟨v.x, v.y⟩) →
      (treeIdsList cs).Nodup →
      ∀ (acc : List (String × Pos)) (v : LayoutNode),
        (∃ c ∈ cs, v ∈ subtreesOf c) →
        lookupPos (collectPositionsList cs acc) v.id = some ⟨v.x, v.y⟩ := by
  intro cs
  induction cs with
  | nil =>
      intro _ _ acc v hv
      obtain ⟨c, hc, _⟩ := hv
      cases hc
  | cons c cs ih =>
      intro hc hnodup acc v hv
      rw [treeIdsList_cons] at hnodup
      rw [List.nodup_append] at hnodup
      rw [collectPositionsList_cons]
      obtain ⟨c', hc', hvc'⟩ := hv
      rcases List.mem_cons.mp hc' with rfl | hc''
      · have hvid : v.id ∈ treeIds c' := mem_treeIds v c' hvc'
        have hnotin : v.id ∉ treeIdsList cs := fun hmem => hnodup.2.2 hvid hmem
        rw [collectPositionsList_preserve cs
            (fun c0 h0 acc0 k0 hk0 => collectPositions_preserve c0 acc0 k0 hk0) _ _ hnotin]
        exact hc c' (List.mem_cons_self _ _) hnodup.1 acc v hvc'
      · exact ih (fun c0 h0 => hc c0 (List.mem_cons_of_mem _ h0)) hnodup.2.1 _ v ⟨c', hc'', hvc'⟩

theorem collectPositions_value :
    ∀ (t : LayoutNode), (treeIds t).Nodup →
      ∀ (acc : List (String × Pos)), ∀ v ∈ subtreesOf t,
        lookupPos (collectPositions t acc) v.id = some ⟨v.x, v.y⟩ := by
  intro t
  induction t using layoutNode_ind with
  | step id node children depth x y w h ihc =>
      intro hnodup acc v hv
      rw [treeIds_def] at hnodup
      rw [List.nodup_cons] at hnodup
      rw [subtreesOf_def] at hv
      rw [collectPositions_def]
      rcases List.mem_cons.mp hv with rfl | hv'
      · rw [collectPositionsList_preserve children
            (fun c0 h0 acc0 k0 hk0 => collectPositions_preserve c0 acc0 k0 hk0) _ _ hnodup.1]
        exact lookupPos_setPos_self acc _ _
      · rw [mem_subtreesOfList] at hv'
        exact collectPositionsList_value children ihc hnodup.2 _ v hv'

theorem treeIdsList_layoutChildren (hs vs : ℚ) :
    ∀ (cs : List LayoutNode),
      (∀ c ∈ cs, ∀ (x y : ℚ) (d : Nat), treeIds (layoutTree hs vs c x y d) = treeIds c) →
      ∀ (curX childY : ℚ) (d : Nat),
        treeIdsList (layoutChildren hs vs cs curX childY d) = treeIdsList cs := by
  intro cs
  induction cs with
  | nil => intro _ curX childY d; rw [layoutChildren_nil]
  | cons c cs ih =>
      intro hc curX childY d
      rw [layoutChildren_cons, treeIdsList_cons, treeIdsList_cons,
        hc c (List.mem_cons_self c cs),
        ih (fun c' h' => hc c' (List.mem_cons_of_mem _ h'))]

theorem treeIds_layoutTree (hs vs : ℚ) :
    ∀ (t : LayoutNode) (x y : ℚ) (d : Nat), treeIds (layoutTree hs vs t x y d) = treeIds t := by
  intro t
  induction t using layoutNode_ind with
  | step id node children depth x0 y0 w h ihc =>
      intro x y d
      rw [layoutTree_def, treeIds_def, treeIds_def]
      show id :: treeIdsList _ = id :: treeIdsList children
      rw [treeIdsList_layoutChildren hs vs children ihc]

/-- C7.  For every node map and root whose `buildTree` succeeds (with distinct
ids in the built tree), the position map returned by `autoLayout` maps each
laid-out node to its computed coordinates, and in the laid-out tree every
parent's sibling subtrees carry pairwise disjoint (strictly separated)
horizontal bounding intervals — each interval being the subtree extent
`calculateSubtreeWidth` centered on the stored abscissa — while every parent
is horizontally centered over the combined span of its children. -/
theorem autoLayout_siblingSubtreesDisjoint
    (nodes : NodeMap) (rootId : String) (t : LayoutNode)
    (hbt : buildTreeF (nodes.length + 1) nodes rootId = some t)
    (hnodup : (treeIds t).Nodup)
    (u : LayoutNode) (hu : u ∈ subtreesOf (layoutTree 100 80 t 300 50 0)) :
    autoLayoutDefault nodes rootId =
      some (collectPositions (layoutTree 100 80 t 300 50 0) []) ∧
    (∀ v ∈ subtreesOf (layoutTree 100 80 t 300 50 0),
       lookupPos (collectPositions (layoutTree 100 80 t 300 50 0) []) v.id =
         some ⟨v.x, v.y⟩) ∧
    u.children.Pairwise (fun a b => intervalRight 100 a < intervalLeft 100 b) ∧
    centeredOverChildren 100 u := by
  obtain ⟨hsep, hcent⟩ := layoutTree_separation 100 80 (by norm_num) t
    (buildTreeF_widths _ nodes rootId t hbt) 300 50 0 u hu
  refine ⟨?_, ?_, hsep, hcent⟩
  · simp [autoLayoutDefault, autoLayout, hbt]
  · refine fun v hv => collectPositions_value _ ?_ [] v hv
    rw [treeIds_layoutTree]
    exact hnodup

/-- Witness for `autoLayout_siblingSubtreesDisjoint`: the two sibling leaves
under the root of `wideNodes`. -/
theorem autoLayout_siblingSubtreesDisjoint_witness :
    buildTreeF (wideNodes.length + 1) wideNodes "root" = some wideTree ∧
    (treeIds wideTree).Nodup ∧
    (autoLayoutDefault wideNodes "root" =
        some (collectPositions (layoutTree 100 80 wideTree 300 50 0) []) ∧
      (∀ v ∈ subtreesOf (layoutTree 100 80 wideTree 300 50 0),
         lookupPos (collectPositions (layoutTree 100 80 wideTree 300 50 0) []) v.id =
           some ⟨v.x, v.y⟩) ∧
      (layoutTree 100 80 wideTree 300 50 0).children.Pairwise
        (fun a b => intervalRight 100 a < intervalLeft 100 b) ∧
      centeredOverChildren 100 (layoutTree 100 80 wideTree 300 50 0)) := by
  have hbt : buildTreeF (wideNodes.length + 1) wideNodes "root" = some wideTree := by rfl
  have hnodup : (treeIds wideTree).Nodup := by
    rw [wideTree, treeIds_def]
    show ("root" :: treeIdsList _).Nodup
    rw [treeIdsList_cons, treeIdsList_cons, treeIdsList_nil, treeIds_def, treeIds_def]
    show ("root" :: (["a"] ++ (["b"] ++ []))).Nodup
    decide
  exact ⟨hbt, hnodup,
    autoLayout_siblingSubtreesDisjoint wideNodes "root" wideTree hbt hnodup
      (layoutTree 100 80 wideTree 300 50 0) (self_mem_subtreesOf _)⟩

theorem stripTree_def (id : String) (node : ChatNode) (children : List LayoutNode)
    (depth : Nat) (x y w h : ℚ) :
    stripTree ⟨id, node, children, depth, x, y, w, h⟩ =
      ⟨id, stripNode node, stripList children, depth, x, y, w, h⟩ := by
  simp [stripTree]

theorem stripList_nil : stripList [] = [] := by
  simp [stripList]

theorem stripList_cons (c : LayoutNode) (cs : List LayoutNode) :
    stripList (c :: cs) = stripTree c :: stripList cs := by
  simp [stripList]

theorem estimateNodeHeight_position (n : ChatNode) (p : Pos) :
    estimateNodeHeight { n with position := p } = estimateNodeHeight n := by
  obtain ⟨id, ty, content, parentId, children, model, ts, pos, um, am, tc, qc⟩ := n
  rfl

theorem eqUpToPos_refl (n : ChatNode) : eqUpToPos n n := by
  obtain ⟨id, ty, content, parentId, children, model, ts, pos, um, am, tc, qc⟩ := n
  rfl

theorem mapsAgreeUpToPos_refl (m : NodeMap) : mapsAgreeUpToPos m m := by
  intro id
  cases h : lookupNode m id with
  | none => exact Or.inl ⟨by simp, by simp⟩
  | some n => exact Or.inr ⟨n, n, rfl, rfl, eqUpToPos_refl n⟩

theorem eqUpToPos_setPosition (n1 n2 : ChatNode) (p : Pos) (h : eqUpToPos n1 n2) :
    eqUpToPos n1 { n2 with position := p } := by
  rw [eqUpToPos] at h ⊢
  rw [h]

theorem applyPositions_agree (pm : List (String × Pos)) (m : NodeMap) :
    mapsAgreeUpToPos m (applyPositions pm m) := by
  suffices h : ∀ (pm : List (String × Pos)) (acc : NodeMap), mapsAgreeUpToPos m acc →
      mapsAgreeUpToPos m (pm.foldl (fun acc kp =>
        match lookupNode acc kp.1 with
        | some n => setNode acc kp.1 { n with position := kp.2 }
        | none => acc) acc) by
    exact h pm m (mapsAgreeUpToPos_refl m)
  intro pm
  induction pm with
  | nil => intro acc hacc; exact hacc
  | cons kp pm ih =>
      intro acc hacc
      rw [List.foldl_cons]
      refine ih _ ?_
      intro k
      cases hlook : lookupNode acc kp.1 with
      | none => exact hacc k
      | some n =>
          by_cases hk : k = kp.1
          · subst hk
            rcases hacc kp.1 with ⟨_, h2⟩ | ⟨n1, n2, h1, h2, h3⟩
            · rw [hlook] at h2; simp at h2
            · rw [hlook] at h2
              have hn := Option.some.inj h2
              subst hn
              exact Or.inr ⟨n1, _, h1, lookupNode_setNode_self _ _ _,
                eqUpToPos_setPosition n1 n kp.2 h3⟩
          · rcases hacc k with ⟨h1, h2⟩ | ⟨n1, n2, h1, h2, h3⟩
            · refine Or.inl ⟨h1, ?_⟩
              show (lookupNode (setNode acc kp.1 _) k).isNone = true
              rw [lookupNode_setNode_other _ _ _ _ hk]
              exact h2
            · refine Or.inr ⟨n1, n2, h1, ?_, h3⟩
              show lookupNode (setNode acc kp.1 _) k = some n2
              rw [lookupNode_setNode_other _ _ _ _ hk]
              exact h2

theorem setNode_length_of_mem (m : NodeMap) (k : String) (v : ChatNode)
    (h : (lookupNode m k).isSome) : (setNode m k v).length = m.length := by
  induction m with
  | nil => simp [lookupNode] at h
  | cons q rest ih =>
      obtain ⟨k', v'⟩ := q
      by_cases h' : k' = k
      · simp [setNode, h']
      · rw [lookupNode] at h
        rw [if_neg h'] at h
        simp [setNode, h', ih h]

theorem applyPositions_length (pm : List (String × Pos)) (m : NodeMap) :
    (applyPositions pm m).length = m.length := by
  suffices h : ∀ (pm : List (String × Pos)) (acc : NodeMap),
      (pm.foldl (fun acc kp =>
        match lookupNode acc kp.1 with
        | some n => setNode acc kp.1 { n with position := kp.2 }
        | none => acc) acc).length = acc.length by
    exact h pm m
  intro pm
  induction pm with
  | nil => intro acc; rfl
  | cons kp pm ih =>
      intro acc
      rw [List.foldl_cons]
      cases hlook : lookupNode acc kp.1 with
      | none => exact ih acc
      | some n =>
          have h1 : (lookupNode acc kp.1).isSome := by rw [hlook]; rfl
          exact (ih (setNode acc kp.1 { n with position := kp.2 })).trans
            (setNode_length_of_mem acc kp.1 _ h1)

theorem stripList_length : ∀ cs : List LayoutNode, (stripList cs).length = cs.length := by
  intro cs
  induction cs with
  | nil => rw [stripList_nil]
  | cons c cs ih => rw [stripList_cons, List.length_cons, List.length_cons, ih]

theorem subtreeWidth_strip :
    ∀ t : LayoutNode, subtreeWidth 100 (stripTree t) = subtreeWidth 100 t := by
  have hlist : ∀ (cs : List LayoutNode),
      (∀ c ∈ cs, subtreeWidth 100 (stripTree c) = subtreeWidth 100 c) →
      subtreeWidthSum 100 (stripList cs) = subtreeWidthSum 100 cs := by
    intro cs
    induction cs with
    | nil => intro _; rw [stripList_nil]
    | cons c cs ih =>
        intro hc
        rw [stripList_cons, subtreeWidthSum_cons, subtreeWidthSum_cons,
          hc c (List.mem_cons_self c cs),
          ih (fun c' h' => hc c' (List.mem_cons_of_mem _ h'))]
  intro t
  induction t using layoutNode_ind with
  | step id node children depth x y w h ihc =>
      rw [stripTree_def]
      cases children with
      | nil => rw [stripList_nil, subtreeWidth_leaf, subtreeWidth_leaf]
      | cons c cs =>
          rw [stripList_cons, subtreeWidth_node, subtreeWidth_node,
            ← stripList_cons, hlist (c :: cs) ihc]
          have hlen : (stripList (c :: cs)).length = (c :: cs).length :=
            stripList_length (c :: cs)
          rw [stripList_cons] at hlen ⊢
          rw [hlen]

theorem layoutTree_strip :
    ∀ (t : LayoutNode) (x y : ℚ) (d : Nat),
      stripTree (layoutTree 100 80 t x y d) = layoutTree 100 80 (stripTree t) x y d := by
  have hlist : ∀ (cs : List LayoutNode),
      (∀ c ∈ cs, ∀ (x y : ℚ) (d : Nat),
        stripTree (layoutTree 100 80 c x y d) = layoutTree 100 80 (stripTree c) x y d) →
      ∀ (curX childY : ℚ) (d : Nat),
        stripList (layoutChildren 100 80 cs curX childY d) =
          layoutChildren 100 80 (stripList cs) curX childY d := by
    intro cs
    induction cs with
    | nil => intro _ curX childY d; rw [layoutChildren_nil, stripList_nil, layoutChildren_nil]
    | cons c cs ih =>
        intro hc curX childY d
        rw [layoutChildren_cons, stripList_cons, stripList_cons, layoutChildren_cons,
          hc c (List.mem_cons_self c cs),
          ih (fun c' h' => hc c' (List.mem_cons_of_mem _ h')),
          subtreeWidth_strip c]
  intro t
  induction t using layoutNode_ind with
  | step id node children depth x0 y0 w h ihc =>
      intro x y d
      rw [layoutTree_def, stripTree_def, stripTree_def, layoutTree_def,
        hlist children ihc]
      have hsum : subtreeWidthSum 100 (stripList children) = subtreeWidthSum 100 children := by
        induction children with
        | nil => rw [stripList_nil]
        | cons c cs ihl =>
            rw [stripList_cons, subtreeWidthSum_cons, subtreeWidthSum_cons,
              subtreeWidth_strip c, ihl (fun c' h' => ihc c' (List.mem_cons_of_mem _ h'))]
      rw [hsum, stripList_length]

theorem collectPositions_strip :
    ∀ (t : LayoutNode) (acc : List (String × Pos)),
      collectPositions (stripTree t) acc = collectPositions t acc := by
  have hlist : ∀ (cs : List LayoutNode),
      (∀ c ∈ cs, ∀ acc, collectPositions (stripTree c) acc = collectPositions c acc) →
      ∀ acc, collectPositionsList (stripList cs) acc = collectPositionsList cs acc := by
    intro cs
    induction cs with
    | nil => intro _ acc; rw [stripList_nil]
    | cons c cs ih =>
        intro hc acc
        rw [stripList_cons, collectPositionsList_cons, collectPositionsList_cons,
          hc c (List.mem_cons_self c cs),
          ih (fun c' h' => hc c' (List.mem_cons_of_mem _ h'))]
  intro t
  induction t using layoutNode_ind with
  | step id node children depth x y w h ihc =>
      intro acc
      rw [stripTree_def, collectPositions_def, collectPositions_def, hlist children ihc]

theorem stripList_eq_map : ∀ cs : List LayoutNode, stripList cs = cs.map stripTree := by
  intro cs
  induction cs with
  | nil => rw [stripList_nil]; rfl
  | cons c cs ih => rw [stripList_cons, List.map_cons, ih]

theorem mapM_strip_congr :
    ∀ (l : List String) (f1 f2 : String → Option LayoutNode),
      (∀ a ∈ l, (f1 a).map stripTree = (f2 a).map stripTree) →
      (l.mapM f1).map (List.map stripTree) = (l.mapM f2).map (List.map stripTree) := by
  intro l
  induction l with
  | nil => intro f1 f2 _; rfl
  | cons a l ih =>
      intro f1 f2 h
      rw [List.mapM_cons, List.mapM_cons]
      have ha := h a (List.mem_cons_self a l)
      have hl := ih f1 f2 (fun a' h' => h a' (List.mem_cons_of_mem _ h'))
      cases e1 : f1 a with
      | none =>
          cases e2 : f2 a with
          | none => rfl
          | some b2 => rw [e1, e2] at ha; simp at ha
      | some b1 =>
          cases e2 : f2 a with
          | none => rw [e1, e2] at ha; simp at ha
          | some b2 =>
              rw [e1, e2] at ha
              simp only [Option.map_some'] at ha
              have hb := Option.some.inj ha
              cases g1 : l.mapM f1 with
              | none =>
                  cases g2 : l.mapM f2 with
                  | none => rfl
                  | some l2 => rw [g1, g2] at hl; simp at hl
              | some l1 =>
                  cases g2 : l.mapM f2 with
                  | none => rw [g1, g2] at hl; simp at hl
                  | some l2 =>
                      rw [g1, g2] at hl
                      simp only [Option.map_some'] at hl
                      have hls := Option.some.inj hl
                      simp only [Option.pure_def, Option.bind_eq_bind, Option.some_bind,
                        Option.map_some', Option.some.injEq, List.map_cons]
                      rw [hb, hls]

theorem buildTreeF_agree (m1 m2 : NodeMap) (hag : mapsAgreeUpToPos m1 m2) :
    ∀ (fuel : Nat) (rootId : String),
      (buildTreeF fuel m1 rootId).map stripTree =
        (buildTreeF fuel m2 rootId).map stripTree := by
  intro fuel
  induction fuel with
  | zero => intro rootId; rfl
  | succ fuel ih =>
      intro rootId
      rcases hag rootId with ⟨h1, h2⟩ | ⟨n1, n2, h1, h2, h3⟩
      · simp only [buildTreeF, Option.isNone_iff_eq_none.mp h1,
          Option.isNone_iff_eq_none.mp h2]
      · simp only [buildTreeF, h1, h2]
        have hch : n2.children = n1.children := by rw [h3]
        have hfil : n1.children.filter (fun cid => (lookupNode m1 cid).isSome) =
            n2.children.filter (fun cid => (lookupNode m2 cid).isSome) := by
          rw [hch]
          apply List.filter_congr
          intro cid _
          rcases hag cid with ⟨g1, g2⟩ | ⟨k1, k2, g1, g2, _⟩
          · rw [Option.isNone_iff_eq_none.mp g1, Option.isNone_iff_eq_none.mp g2]
          · rw [g1, g2]
            rfl
        rw [← hfil]
        have hmm := mapM_strip_congr
          (n1.children.filter fun cid => (lookupNode m1 cid).isSome)
          (buildTreeF fuel m1) (buildTreeF fuel m2) (fun a _ => ih a)
        cases e1 : (n1.children.filter
            (fun cid => (lookupNode m1 cid).isSome)).mapM (buildTreeF fuel m1) with
        | none =>
            cases e2 : (n1.children.filter
                (fun cid => (lookupNode m1 cid).isSome)).mapM (buildTreeF fuel m2) with
            | none => rfl
            | some ch2 => rw [e1, e2] at hmm; simp at hmm
        | some ch1 =>
            cases e2 : (n1.children.filter
                (fun cid => (lookupNode m1 cid).isSome)).mapM (buildTreeF fuel m2) with
            | none => rw [e1, e2] at hmm; simp at hmm
            | some ch2 =>
                rw [e1, e2] at hmm
                simp only [Option.map_some'] at hmm
                have hchs := Option.some.inj hmm
                simp only [Option.map_some', Option.some.injEq]
                rw [stripTree_def, stripTree_def]
                have hid : n2.id = n1.id := by rw [h3]
                have hsn : stripNode n2 = stripNode n1 := by
                  rw [h3]
                  rfl
                have hh : estimateNodeHeight n2 = estimateNodeHeight n1 := by
                  rw [h3]
                  exact estimateNodeHeight_position n1 n2.position
                rw [hid, hsn, hh, stripList_eq_map, stripList_eq_map, hchs]

/-- C8.  Layout is deterministic and idempotent: changing only node positions
(in particular, applying the positions `rearrangeNodes` just computed and
re-running layout) yields the identical position map, and a session holding
only a childless root node always gets the single fixed origin position
`(300, 50)`. -/
theorem autoLayout_deterministicIdempotent :
    (∀ (nodes : NodeMap) (rootId : String) (pm : List (String × Pos)),
       autoLayoutDefault (applyPositions pm nodes) rootId = autoLayoutDefault nodes rootId) ∧
    (∀ (rootId : String) (n : ChatNode), n.children = [] →
       autoLayoutDefault [(rootId, n)] rootId = some [(n.id, ⟨300, 50⟩)]) := by
  constructor
  · intro nodes rootId pm
    have hag := applyPositions_agree pm nodes
    have hlen := applyPositions_length pm nodes
    have hstrip := buildTreeF_agree nodes (applyPositions pm nodes) hag
      (nodes.length + 1) rootId
    rw [autoLayoutDefault, autoLayoutDefault, autoLayout, autoLayout, hlen]
    cases e1 : buildTreeF (nodes.length + 1) nodes rootId with
    | none =>
        cases e2 : buildTreeF (nodes.length + 1) (applyPositions pm nodes) rootId with
        | none => rfl
        | some t2 => rw [e1, e2] at hstrip; simp at hstrip
    | some t1 =>
        cases e2 : buildTreeF (nodes.length + 1) (applyPositions pm nodes) rootId with
        | none => rw [e1, e2] at hstrip; simp at hstrip
        | some t2 =>
            rw [e1, e2] at hstrip
            simp only [Option.map_some'] at hstrip
            have hst := Option.some.inj hstrip
            show some (collectPositions (layoutTree 100 80 t2 300 50 0) []) =
              some (collectPositions (layoutTree 100 80 t1 300 50 0) [])
            rw [← collectPositions_strip (layoutTree 100 80 t2 300 50 0) [],
              layoutTree_strip t2 300 50 0, ← hst, ← layoutTree_strip t1 300 50 0,
              collectPositions_strip (layoutTree 100 80 t1 300 50 0) []]
  · intro rootId n hc
    have hbt : buildTreeF (([(rootId, n)] : NodeMap).length + 1) [(rootId, n)] rootId =
        some ⟨n.id, n, [], 0, 0, 0, 600, estimateNodeHeight n⟩ := by
      rw [buildTreeF]
      simp [lookupNode, hc, List.mapM.loop]
    rw [autoLayoutDefault, autoLayout, hbt]
    show some (collectPositions
        (layoutTree 100 80 ⟨n.id, n, [], 0, 0, 0, 600, estimateNodeHeight n⟩ 300 50 0) []) =
      some [(n.id, ⟨300, 50⟩)]
    rw [layoutTree_def, layoutChildren_nil, collectPositions_def, collectPositionsList_nil]
    rfl

/-- Witness for `autoLayout_deterministicIdempotent`: re-running layout after
a position change on `wideNodes` is invariant, and a fresh root-only session
gets the origin position. -/
theorem autoLayout_deterministicIdempotent_witness :
    autoLayoutDefault (applyPositions [("a", ⟨1, 2⟩)] wideNodes) "root" =
      autoLayoutDefault wideNodes "root" ∧
    (createSessionRootNode 0).children = [] ∧
    autoLayoutDefault [("root", createSessionRootNode 0)] "root" =
      some [("root", ⟨300, 50⟩)] := by
  exact ⟨autoLayout_deterministicIdempotent.1 wideNodes "root" [("a", ⟨1, 2⟩)], rfl,
    autoLayout_deterministicIdempotent.2 "root" (createSessionRootNode 0) rfl⟩
